import Mathlib

/-!
Verification development for the timestamp-chain and timesheet-derivation
engine of the HR backend (hash-chain ledger, chain-integrity auditor,
attendance aggregator, timesheet aggregator, latest-sequence reader).

The JavaScript lambda handlers are shallowly embedded as pure Lean
functions.  External collaborators (DynamoDB, Cognito claims, encryption)
are modelled as explicit parameters: the per-employee timestamp table is a
`List LogEntry`, reads and conditional writes are functions of that list,
and the caller's authorization results are booleans.  ISO-8601 UTC instants
produced by `Date.toISOString()` are modelled by `Instant` (calendar day
plus millisecond-of-day); `Date` arithmetic becomes arithmetic on
`Instant.toMillis` and `split('T')[0]` becomes the `day` component.
JavaScript floating-point hour arithmetic is modelled over `ℚ`, with
`toFixed(n)` modelled as rounding to `n` decimal places.
-/

set_option maxRecDepth 20000

namespace HrStack

/-! ### SHA-256 (`crypto.createHash('sha256')...digest('hex')`)

A bit-faithful SHA-256 over `Nat`, used by `generateHash` in both
`dev-createTimestamp.js` and `dev-validateTimestamps.js`. -/

/-- Truncate a natural number to 32 bits (a SHA-256 machine word). -/
def w32 (n : Nat) : Nat := n % 4294967296

/-- Rotate a 32-bit word right by `n` bits. -/
def rotr (n x : Nat) : Nat := w32 ((x >>> n) ||| (x <<< (32 - n)))

/-- UTF-8 encoding of a single character as a list of bytes. -/
def utf8Char (c : Char) : List Nat :=
  let n := c.toNat
  if n < 128 then [n]
  else if n < 2048 then [192 + n / 64, 128 + n % 64]
  else if n < 65536 then [224 + n / 4096, 128 + (n / 64) % 64, 128 + n % 64]
  else [240 + n / 262144, 128 + (n / 4096) % 64, 128 + (n / 64) % 64, 128 + n % 64]

/-- UTF-8 encoding of a string as a list of bytes. -/
def utf8Bytes (s : String) : List Nat := (s.data.map utf8Char).flatten

/-- Big-endian rendering of `n` in `k` bytes. -/
def beBytes : Nat → Nat → List Nat
  | 0, _ => []
  | k + 1, n => beBytes k (n / 256) ++ [n % 256]

/-- SHA-256 message padding: append `0x80`, zeros, and the 64-bit bit length. -/
def sha256pad (m : List Nat) : List Nat :=
  let L := m.length
  let k := (64 + 55 - (L % 64)) % 64
  m ++ [128] ++ List.replicate k 0 ++ beBytes 8 (L * 8)

/-- Split a list into chunks of `n` elements, with explicit fuel so the
recursion is structural (the fuel is instantiated with the list's length,
which suffices for any positive `n`). -/
def chunksOfAux (n : Nat) : Nat → List Nat → List (List Nat)
  | 0, _ => []
  | _, [] => []
  | fuel + 1, l => l.take n :: chunksOfAux n fuel (l.drop n)

/-- Split a list into chunks of `n` elements (the last may be shorter). -/
def chunksOf (n : Nat) (l : List Nat) : List (List Nat) :=
  chunksOfAux n l.length l

/-- Big-endian word value of a byte list. -/
def beWord (l : List Nat) : Nat := l.foldl (fun a b => a * 256 + b) 0

/-- The 64 SHA-256 round constants. -/
def sha256K : List Nat :=
  [1116352408, 1899447441, 3049323471, 3921009573, 961987163, 1508970993, 2453635748, 2870763221,
   3624381080, 310598401, 607225278, 1426881987, 1925078388, 2162078206, 2614888103, 3248222580,
   3835390401, 4022224774, 264347078, 604807628, 770255983, 1249150122, 1555081692, 1996064986,
   2554220882, 2821834349, 2952996808, 3210313671, 3336571891, 3584528711, 113926993, 338241895,
   666307205, 773529912, 1294757372, 1396182291, 1695183700, 1986661051, 2177026350, 2456956037,
   2730485921, 2820302411, 3259730800, 3345764771, 3516065817, 3600352804, 4094571909, 275423344,
   430227734, 506948616, 659060556, 883997877, 958139571, 1322822218, 1537002063, 1747873779,
   1955562222, 2024104815, 2227730452, 2361852424, 2428436474, 2756734187, 3204031479, 3329325298]

/-- The initial SHA-256 hash state. -/
def sha256H0 : List Nat :=
  [1779033703, 3144134277, 1013904242, 2773480762, 1359893119, 2600822924, 528734635, 1541459225]

/-- Extend the 16 message words of a chunk to the 64-word schedule. -/
def sha256schedule (ws : List Nat) : List Nat :=
  (List.range 48).foldl
    (fun w _ =>
      let t := w.length
      let x15 := w.getD (t - 15) 0
      let x2 := w.getD (t - 2) 0
      let s0 := rotr 7 x15 ^^^ rotr 18 x15 ^^^ (x15 >>> 3)
      let s1 := rotr 17 x2 ^^^ rotr 19 x2 ^^^ (x2 >>> 10)
      w ++ [w32 (w.getD (t - 16) 0 + s0 + w.getD (t - 7) 0 + s1)])
    ws

/-- One SHA-256 compression round. -/
def sha256round (st : List Nat) (kw : Nat × Nat) : List Nat :=
  match st with
  | [a, b, c, d, e, f, g, h] =>
    let S1 := rotr 6 e ^^^ rotr 11 e ^^^ rotr 25 e
    let ch := (e &&& f) ^^^ ((e ^^^ 4294967295) &&& g)
    let temp1 := w32 (h + S1 + ch + kw.1 + kw.2)
    let S0 := rotr 2 a ^^^ rotr 13 a ^^^ rotr 22 a
    let maj := (a &&& b) ^^^ (a &&& c) ^^^ (b &&& c)
    let temp2 := w32 (S0 + maj)
    [w32 (temp1 + temp2), a, b, c, w32 (d + temp1), e, f, g]
  | _ => st

/-- Compress one 64-byte chunk into the running hash state. -/
def sha256compress (hs : List Nat) (chunk : List Nat) : List Nat :=
  let w := sha256schedule ((chunksOf 4 chunk).map beWord)
  let st := (sha256K.zip w).foldl sha256round hs
  List.zipWith (fun x y => w32 (x + y)) hs st

/-- Lower-case hex digit for a value below 16. -/
def hexDigit (n : Nat) : Char :=
  if n < 10 then Char.ofNat (48 + n) else Char.ofNat (87 + n)

/-- Render a 32-bit word as exactly eight lower-case hex characters. -/
def toHex8 (w : Nat) : String :=
  String.mk ([28, 24, 20, 16, 12, 8, 4, 0].map (fun s => hexDigit ((w >>> s) &&& 15)))

/-- SHA-256 digest of a string rendered as lower-case hex, modelling
`crypto.createHash('sha256').update(dataToHash).digest('hex')`. -/
def sha256hex (s : String) : String :=
  let hs := (chunksOf 64 (sha256pad (utf8Bytes s))).foldl sha256compress sha256H0
  (hs.map toHex8).foldl (fun a b => a ++ b) ""

/-! ### Data model -/

/-- An ISO-8601 UTC instant as produced by `new Date().toISOString()`,
modelled by its calendar-day number (`split('T')[0]`, the `DATE#` GSI key)
and its millisecond offset within that day.  `new Date(x) - new Date(y)`
becomes subtraction of `toMillis` values; string order of the rendered
timestamps agrees with `toMillis` order for the fixed-width ISO format. -/
structure Instant where
  day : Nat
  ms : Nat
deriving DecidableEq, Repr

/-- Epoch milliseconds of an instant. -/
def Instant.toMillis (t : Instant) : Nat := t.day * 86400000 + t.ms

/-- Rendering of an instant, standing for its ISO-8601 string in hash
inputs.  Only determinism and injectivity of the rendering matter to any
checked property; the exact ISO text is abstracted. -/
def Instant.render (t : Instant) : String := toString t.day ++ "T" ++ toString t.ms

/-- The five timestamp event types (`timestampType`). -/
inductive TsType
  | CLOCK_IN
  | CLOCK_OUT
  | BREAK_START
  | BREAK_END
  | WBS_CHANGE
deriving DecidableEq, Repr

/-- JavaScript string rendering of a timestamp type (template-literal use). -/
def TsType.render : TsType → String
  | .CLOCK_IN => "CLOCK_IN"
  | .CLOCK_OUT => "CLOCK_OUT"
  | .BREAK_START => "BREAK_START"
  | .BREAK_END => "BREAK_END"
  | .WBS_CHANGE => "WBS_CHANGE"

/-- A stored timestamp-log item for one employee (partition `EMP#id`, sort
key the timestamp).  Fields not read by any of the audited computations
(`location`, `deviceId`, `ipAddress`, `wbsChangeReason`, `previousWbsCode`,
`validated`, `createdAt` and the derived GSI keys) are omitted. -/
structure LogEntry where
  employeeId : String
  timestamp : Instant
  timestampType : TsType
  sequenceNumber : Nat
  previousTimestamp : Option Instant
  wbsCode : Option String
  hashChain : String
deriving DecidableEq, Repr

/-- The chain digest of a log entry: SHA-256 over the concatenation of its
timestamp, type, sequence number, and WBS code (empty string when null),
exactly the `dataToHash` template of `generateHash` in
`dev-createTimestamp.js` and `dev-validateTimestamps.js`. -/
def generateHash (logEntry : LogEntry) : String :=
  sha256hex (logEntry.timestamp.render ++ logEntry.timestampType.render ++
    toString logEntry.sequenceNumber ++ logEntry.wbsCode.getD "")

/-! ### Hash-chain ledger append (`dev-createTimestamp.js`, steps 3–5)

The handler's steps 1–2 (authorization, required-field validation, employee
status, WBS validation / auto-resolution) run before the ledger logic and
concern external collaborators; `AppendRequest.wbsCode` carries the value
of the handler's `wbsCode` variable after step 2.  The DynamoDB descending
`Limit: 1` read becomes `latestEntry`; the conditional `PutItem` on
`(PK, SK)` becomes an equal-timestamp collision check on the list. -/

/-- Failure kinds of the append handler (each a thrown `Error` in source). -/
inductive AppendError
  | invalidTransition (lastAction attempted : TsType)
  | excessiveGap
  | firstEventMustBeClockIn
  | missingWbsChangeReason
  | writeConflict
deriving DecidableEq, Repr

/-- A timestamp-creation request after input validation and WBS resolution. -/
structure AppendRequest where
  employeeId : String
  timestampType : TsType
  wbsCode : Option String
  wbsChangeReason : Option String
deriving DecidableEq, Repr

/-- The most recent event of a ledger: the item with the greatest sort key
(timestamp), as returned by the descending `Limit: 1` query. -/
def latestEntry : List LogEntry → Option LogEntry
  | [] => none
  | e :: rest =>
    match latestEntry rest with
    | none => some e
    | some m => if m.timestamp.toMillis < e.timestamp.toMillis then some e else some m

/-- State-machine transition table of the append handler: legal next event
types given the last event's type. -/
def validTransitions : TsType → List TsType
  | .CLOCK_IN => [.BREAK_START, .WBS_CHANGE, .CLOCK_OUT]
  | .CLOCK_OUT => [.CLOCK_IN]
  | .BREAK_START => [.BREAK_END, .WBS_CHANGE]
  | .BREAK_END => [.BREAK_START, .WBS_CHANGE, .CLOCK_OUT]
  | .WBS_CHANGE => [.BREAK_START, .WBS_CHANGE, .CLOCK_OUT]

/-- Item construction and write (steps 4–5): the `WBS_CHANGE` reason check,
then the conditional put guarded by `attribute_not_exists(PK) AND
attribute_not_exists(SK)`. -/
def finishAppend (ledger : List LogEntry) (timestamp : Instant) (req : AppendRequest)
    (sequenceNumber : Nat) (previousTimestamp : Option Instant) (hashChain : String)
    (wbsCode : Option String) : Except AppendError (List LogEntry) :=
  let item : LogEntry :=
    { employeeId := req.employeeId, timestamp := timestamp,
      timestampType := req.timestampType, sequenceNumber := sequenceNumber,
      previousTimestamp := previousTimestamp, wbsCode := wbsCode,
      hashChain := hashChain }
  if req.timestampType = .WBS_CHANGE ∧ req.wbsChangeReason = none then
    .error .missingWbsChangeReason
  else if ledger.any (fun e => e.timestamp == timestamp) then
    .error .writeConflict
  else
    .ok (ledger ++ [item])

/-- The ledger-append protocol (handler step 3 onward): fetch the latest
event, validate the state transition and the 24-hour gap, compute the next
sequence number, previous timestamp, chain digest and carried-forward WBS
code, and write the item. -/
def appendTimestamp (ledger : List LogEntry) (timestamp : Instant) (req : AppendRequest) :
    Except AppendError (List LogEntry) :=
  match latestEntry ledger with
  | some latestLog =>
    if req.timestampType ∉ validTransitions latestLog.timestampType then
      .error (.invalidTransition latestLog.timestampType req.timestampType)
    else if (timestamp.toMillis : Int) - (latestLog.timestamp.toMillis : Int) >
        24 * 60 * 60 * 1000 then
      .error .excessiveGap
    else
      finishAppend ledger timestamp req (latestLog.sequenceNumber + 1)
        (some latestLog.timestamp) (generateHash latestLog)
        (req.wbsCode.orElse (fun _ => latestLog.wbsCode))
  | none =>
    if req.timestampType ≠ .CLOCK_IN then
      .error .firstEventMustBeClockIn
    else
      finishAppend ledger timestamp req 1 none "GENESIS" req.wbsCode

/-- The ledger reached by an append attempt: the new list on success, the
unchanged list on failure (a thrown error aborts before the `PutItem`). -/
def appendResult (ledger : List LogEntry) (timestamp : Instant) (req : AppendRequest) :
    List LogEntry :=
  match appendTimestamp ledger timestamp req with
  | .ok l => l
  | .error _ => ledger

/-- One append attempt: the wall-clock timestamp taken by the handler and
the request payload. -/
structure AppendStep where
  timestamp : Instant
  req : AppendRequest
deriving DecidableEq, Repr

/-- Replay a stream of append attempts against the store: accepted appends
write their event, failed attempts leave the table untouched. -/
def buildLedger (ledger : List LogEntry) : List AppendStep → List LogEntry
  | [] => ledger
  | s :: rest => buildLedger (appendResult ledger s.timestamp s.req) rest

/-! ### Chain-integrity auditor (`dev-validateTimestamps.js`)

The auditor fetches the employee's whole ledger ascending by sort key and
replays it.  `runAudit` takes that ascending list.  Error messages are the
source's strings; the per-class dispatch is the source's substring test
(`e.includes(...)`). -/

/-- Whether `needle` occurs at the start of `hay` (character lists). -/
def listStartsWith : List Char → List Char → Bool
  | _, [] => true
  | [], _ :: _ => false
  | a :: as, b :: bs => a == b && listStartsWith as bs

/-- Whether `needle` occurs anywhere inside `hay` (character lists). -/
def listHasSub : List Char → List Char → Bool
  | [], needle => needle.isEmpty
  | c :: t, needle => listStartsWith (c :: t) needle || listHasSub t needle

/-- JavaScript `hay.includes(needle)`. -/
def strIncludes (hay needle : String) : Bool := listHasSub hay.data needle.data

/-- The five error classes of the integrity report, each holding the
per-event error-message lists pushed into it (`errorDetails` in source; the
entries' timestamp/sequence echo fields are dropped, their message lists
and counts are kept). -/
structure ErrorDetails where
  sequence : List (List String)
  chronological : List (List String)
  hash : List (List String)
  state : List (List String)
  breaks : List (Nat × String)
deriving DecidableEq, Repr

/-- The empty error-detail record. -/
def ErrorDetails.empty : ErrorDetails := ⟨[], [], [], [], []⟩

/-- Sequence, chronological and hash-chain checks for one event at position
`i` (0-based), given its predecessor in ledger order. -/
def seqChronHashErrors (i : Nat) (previous : Option LogEntry) (current : LogEntry) :
    List String :=
  (if current.sequenceNumber ≠ i + 1 then ["Expected sequence " ++ toString (i + 1) ++ "."]
   else []) ++
  (match previous with
   | some p =>
     (if current.timestamp.toMillis ≤ p.timestamp.toMillis then ["Not chronological."]
      else []) ++
     (if current.hashChain ≠ generateHash p then ["Hash mismatch."] else [])
   | none =>
     if current.hashChain ≠ "GENESIS" then ["First hash should be GENESIS."] else [])

/-- State-transition check messages for one event given the auditor's
`clockedIn` / `onBreak` flags before the event. -/
def transitionErrors (clockedIn onBreak : Bool) : TsType → List String
  | .CLOCK_IN => if clockedIn then ["Cannot CLOCK_IN while already clocked in."] else []
  | .CLOCK_OUT =>
    (if ¬clockedIn then ["Cannot CLOCK_OUT if not clocked in."] else []) ++
    (if onBreak then ["Cannot CLOCK_OUT while on break."] else [])
  | .BREAK_START => if ¬clockedIn ∨ onBreak then ["Invalid state for BREAK_START."] else []
  | .BREAK_END => if ¬onBreak then ["Cannot END_BREAK if not on break."] else []
  | .WBS_CHANGE => []

/-- Update of the auditor's `clockedIn` / `onBreak` flags by one event. -/
def stepClockState (clockedIn onBreak : Bool) : TsType → Bool × Bool
  | .CLOCK_IN => (true, false)
  | .CLOCK_OUT => (false, false)
  | .BREAK_START => (clockedIn, true)
  | .BREAK_END => (clockedIn, false)
  | .WBS_CHANGE => (clockedIn, onBreak)

/-- Class dispatch for one event's error list: the source pushes the entry
into each class whose substring test matches any of its messages. -/
def classifyInto (details : ErrorDetails) (errs : List String) : ErrorDetails :=
  if errs.isEmpty then details
  else
    { details with
      sequence := details.sequence ++
        (if errs.any (fun e => strIncludes e "sequence") then [errs] else []),
      chronological := details.chronological ++
        (if errs.any (fun e => strIncludes e "chronological") then [errs] else []),
      hash := details.hash ++
        (if errs.any (fun e => strIncludes e "Hash") then [errs] else []),
      state := details.state ++
        (if errs.any (fun e => strIncludes e "Cannot" || strIncludes e "Invalid state")
         then [errs] else []) }

/-- Accumulator of the auditor's main loop. -/
structure AuditAcc where
  i : Nat
  previous : Option LogEntry
  clockedIn : Bool
  onBreak : Bool
  details : ErrorDetails
  results : List (List String)
deriving Repr

/-- One iteration of the auditor's main loop. -/
def auditStep (acc : AuditAcc) (current : LogEntry) : AuditAcc :=
  let errs := seqChronHashErrors acc.i acc.previous current ++
    transitionErrors acc.clockedIn acc.onBreak current.timestampType
  let st := stepClockState acc.clockedIn acc.onBreak current.timestampType
  { i := acc.i + 1, previous := some current, clockedIn := st.1, onBreak := st.2,
    details := classifyInto acc.details errs, results := acc.results ++ [errs] }

/-- Insert-or-add into the per-date break-minutes table. -/
def addMinutes : List (Nat × ℚ) → Nat → ℚ → List (Nat × ℚ)
  | [], d, q => [(d, q)]
  | (d', v) :: t, d, q => if d' = d then (d', v + q) :: t else (d', v) :: addMinutes t d q

/-- Ensure a date key exists in the break-minutes table (source initializes
`breaksByDate[dateOnly] = 0` for every log's date). -/
def ensureDate (m : List (Nat × ℚ)) (d : Nat) : List (Nat × ℚ) :=
  if m.any (fun p => p.1 = d) then m else m ++ [(d, 0)]

/-- One step of the auditor's break-duration pass: `BREAK_START` records the
open break, `BREAK_END` (with an open break) adds the break's minutes to the
end event's date. -/
def breaksStep (st : List (Nat × ℚ) × Option Instant) (log : LogEntry) :
    List (Nat × ℚ) × Option Instant :=
  let m := ensureDate st.1 log.timestamp.day
  match log.timestampType, st.2 with
  | .BREAK_START, _ => (m, some log.timestamp)
  | .BREAK_END, some s =>
    (addMinutes m log.timestamp.day (((log.timestamp.toMillis : ℚ) - s.toMillis) / 60000), none)
  | _, _ => (m, st.2)

/-- Total recomputed break minutes per calendar date across the ledger. -/
def breaksByDate (timestampLogs : List LogEntry) : List (Nat × ℚ) :=
  (timestampLogs.foldl breaksStep ([], none)).1

/-- Dates whose total break time exceeds the 4-hour (240-minute) limit. -/
def breakErrors (timestampLogs : List LogEntry) : List (Nat × String) :=
  (breaksByDate timestampLogs).foldl
    (fun acc p =>
      if p.2 > 240 then
        acc ++ [(p.1, "Total break duration of " ++ toString p.2 ++
          " minutes exceeds 4-hour limit.")]
      else acc)
    []

/-- The integrity report: log count, the five error classes, the per-event
validation log, and the overall status string. -/
structure AuditReport where
  totalLogs : Nat
  errorDetails : ErrorDetails
  validationResults : List (List String)
  validationStatus : String
deriving DecidableEq, Repr

/-- Replay the auditor over the ascending ledger: the per-event loop, the
final-state check, and the break-duration pass; overall status is `VALID`
exactly when every error class is empty. -/
def runAudit (timestampLogs : List LogEntry) : AuditReport :=
  let acc := timestampLogs.foldl auditStep ⟨0, none, false, false, ErrorDetails.empty, []⟩
  let stateWithFinal := acc.details.state ++
    (if acc.clockedIn then [["Final State Error: Employee is still clocked in."]] else []) ++
    (if acc.onBreak then [["Final State Error: Employee is still on break."]] else [])
  let details := { acc.details with
    state := stateWithFinal,
    breaks := breakErrors timestampLogs }
  let overallValid := details.sequence.isEmpty && details.chronological.isEmpty &&
    details.hash.isEmpty && details.state.isEmpty && details.breaks.isEmpty
  { totalLogs := timestampLogs.length, errorDetails := details,
    validationResults := acc.results,
    validationStatus := if overallValid then "VALID" else "INVALID" }

/-! ### Attendance aggregator (`dev-createAttendanceRecord.js`)

The day's logs (`getLogsForDate`, queried by `DATE#` GSI and sorted by
timestamp), the leave ledger, the WBS metadata lookup and the fresh
`uuidv4()` are passed explicitly.  Attendance dates are day numbers, as in
`Instant.day`. -/

/-- Failure kinds of attendance-record creation (thrown `Error`s). -/
inductive AttendanceError
  | duplicateRecord
  | leaveConflict
  | insufficientLogs
  | missingClockBoundary
  | excessiveWorkDuration
  | excessiveBreakDuration
  | conditionalWriteFailed
deriving DecidableEq, Repr

/-- Round a rational to two decimal places, modelling
`parseFloat(x.toFixed(2))` for the non-negative values occurring here. -/
def toFixed2 (q : ℚ) : ℚ := (Rat.floor (q * 100 + 1 / 2) : ℚ) / 100

/-- Round a rational to three decimal places, modelling
`parseFloat(x.toFixed(3))` for the non-negative values occurring here. -/
def toFixed3 (q : ℚ) : ℚ := (Rat.floor (q * 1000 + 1 / 2) : ℚ) / 1000

/-- The derived attendance details of one day. -/
structure AttendanceDetails where
  checkInTime : Instant
  checkOutTime : Instant
  totalHours : ℚ
  regularHours : ℚ
  overtimeHours : ℚ
  breaks : Nat
  wbsCode : Option String
  costCenter : Option String
deriving DecidableEq, Repr

/-- The break-accumulation loop of `processTimestampLogs`: sums the
milliseconds of each `BREAK_START`→`BREAK_END` pair, failing if any single
break exceeds 30 minutes. -/
def totalBreakMillis (acc : Int) (currentBreakStart : Option Instant) :
    List LogEntry → Except AttendanceError Int
  | [] => .ok acc
  | log :: rest =>
    match log.timestampType, currentBreakStart with
    | .BREAK_START, _ => totalBreakMillis acc (some log.timestamp) rest
    | .BREAK_END, some s =>
      let duration : Int := (log.timestamp.toMillis : Int) - s.toMillis
      if duration > 30 * 60 * 1000 then .error .excessiveBreakDuration
      else totalBreakMillis (acc + duration) none rest
    | _, _ => totalBreakMillis acc currentBreakStart rest

/-- Process one day's logs into attendance details: require a `CLOCK_IN`
and a `CLOCK_OUT` (by `find`, i.e. the first of each), cap the clock span
at 12 hours, accumulate breaks, split net hours at the 8-hour threshold,
and take the day's WBS code from the `CLOCK_IN` event (its cost center via
the metadata lookup). -/
def processTimestampLogs (wbsMeta : String → Option String) (logs : List LogEntry) :
    Except AttendanceError AttendanceDetails :=
  match logs.find? (fun l => l.timestampType == .CLOCK_IN),
      logs.find? (fun l => l.timestampType == .CLOCK_OUT) with
  | some clockIn, some clockOut =>
    let totalDurationMs : Int := (clockOut.timestamp.toMillis : Int) - clockIn.timestamp.toMillis
    if totalDurationMs > 12 * 60 * 60 * 1000 then .error .excessiveWorkDuration
    else
      match totalBreakMillis 0 none logs with
      | .error e => .error e
      | .ok totalBreakMs =>
        let totalHours : ℚ := ((totalDurationMs - totalBreakMs : Int) : ℚ) / 3600000
        .ok
          { checkInTime := clockIn.timestamp, checkOutTime := clockOut.timestamp,
            totalHours := toFixed2 totalHours,
            regularHours := toFixed2 (min totalHours 8),
            overtimeHours := toFixed2 (max 0 (totalHours - 8)),
            breaks := (logs.filter (fun l => l.timestampType == .BREAK_START)).length,
            wbsCode := clockIn.wbsCode, costCenter := clockIn.wbsCode.bind wbsMeta }
  | _, _ => .error .missingClockBoundary

/-- A stored attendance record.  `PK` is `TIME#ATT#` plus the random
`attendanceId`; the duplicate-check GSI keys `GSI4PK`/`GSI4SK` are derived
from employee and date at construction. -/
structure AttendanceItem where
  attendanceId : String
  gsi4pk : String
  gsi4sk : String
  employeeId : String
  attendanceDate : Nat
  details : AttendanceDetails
  workMode : String
  notes : Option String
deriving DecidableEq, Repr

/-- The pre-write duplicate check: query the `GSI4-AttendanceDateIndex` for
`GSI4PK = ATT#employee, GSI4SK = DATE#date`. -/
def attendanceKeyQuery (store : List AttendanceItem) (employeeId : String)
    (attendanceDate : Nat) : Bool :=
  store.any (fun r =>
    r.gsi4pk == "ATT#" ++ employeeId && r.gsi4sk == "DATE#" ++ toString attendanceDate)

/-- The `PutItem` condition `attribute_not_exists(PK)`: the write is
rejected only when an item with the same `TIME#ATT#attendanceId` primary
key already exists. -/
def attendancePutCondition (store : List AttendanceItem) (item : AttendanceItem) : Bool :=
  store.all (fun r => r.attendanceId != item.attendanceId)

/-- The attendance-creation handler after authorization and input
validation: duplicate pre-check, leave-conflict check, the day's-log count
check of `getLogsForDate`, log processing, then the conditional write of
the constructed record under a fresh id. -/
def createAttendanceRecord (store : List AttendanceItem)
    (approvedLeaves : List (Nat × Nat)) (logsForDay : List LogEntry)
    (wbsMeta : String → Option String) (freshId : String) (employeeId : String)
    (attendanceDate : Nat) (workMode : String) (notes : Option String) :
    Except AttendanceError (List AttendanceItem × String) :=
  if attendanceKeyQuery store employeeId attendanceDate then .error .duplicateRecord
  else if approvedLeaves.any (fun p => p.1 ≤ attendanceDate ∧ attendanceDate ≤ p.2) then
    .error .leaveConflict
  else if logsForDay.length < 2 then .error .insufficientLogs
  else
    match processTimestampLogs wbsMeta logsForDay with
    | .error e => .error e
    | .ok details =>
      let item : AttendanceItem :=
        { attendanceId := freshId, gsi4pk := "ATT#" ++ employeeId,
          gsi4sk := "DATE#" ++ toString attendanceDate, employeeId := employeeId,
          attendanceDate := attendanceDate, details := details, workMode := workMode,
          notes := notes }
      if attendancePutCondition store item then .ok (store ++ [item], freshId)
      else .error .conditionalWriteFailed

/-- The attendance store reached by a creation attempt: unchanged on any
failure (single conditional write, nothing partial). -/
def attendanceStoreResult (store : List AttendanceItem)
    (approvedLeaves : List (Nat × Nat)) (logsForDay : List LogEntry)
    (wbsMeta : String → Option String) (freshId : String) (employeeId : String)
    (attendanceDate : Nat) (workMode : String) (notes : Option String) :
    List AttendanceItem :=
  match createAttendanceRecord store approvedLeaves logsForDay wbsMeta freshId employeeId
      attendanceDate workMode notes with
  | .ok (store', _) => store'
  | .error _ => store

/-! ### Timesheet aggregator (`dev-generateTimesheet.js`) -/

/-- A work-allocation segment of the timesheet. -/
structure Segment where
  startTime : Instant
  wbsCode : Option String
  endTime : Option Instant
  totalHours : ℚ
deriving DecidableEq, Repr

/-- The per-day accumulation record of `calculatePayrollDetails`' first
pass (`dailyHours[date]`). -/
structure DayData where
  totalHours : ℚ
  allocations : List Segment
deriving DecidableEq, Repr

/-- Ensure a day key exists in the daily-hours table. -/
def ensureDay (m : List (Nat × DayData)) (d : Nat) : List (Nat × DayData) :=
  if m.any (fun p => p.1 = d) then m else m ++ [(d, ⟨0, []⟩)]

/-- Update the record stored under a day key. -/
def modifyDay (m : List (Nat × DayData)) (d : Nat) (f : DayData → DayData) :
    List (Nat × DayData) :=
  m.map (fun p => if p.1 = d then (p.1, f p.2) else p)

/-- Insertion sort by timestamp, modelling
`logs.sort((a, b) => new Date(a.timestamp) - new Date(b.timestamp))`
(stable, like ECMAScript `sort`). -/
def insertByTime (e : LogEntry) : List LogEntry → List LogEntry
  | [] => [e]
  | x :: xs =>
    if e.timestamp.toMillis < x.timestamp.toMillis then e :: x :: xs
    else x :: insertByTime e xs

/-- Sort logs ascending by timestamp. -/
def sortLogs (logs : List LogEntry) : List LogEntry := logs.foldr insertByTime []

/-- One iteration of `calculatePayrollDetails`' event walk: close the open
segment on `WBS_CHANGE`/`CLOCK_OUT`/`BREAK_START` (pushing it onto the
closing date's allocations), open a segment on
`CLOCK_IN`/`WBS_CHANGE`/`BREAK_END`, and on a `BREAK_END` with an open
break subtract the break hours from the day's running total. -/
def payrollStep (st : List (Nat × DayData) × Option Segment × Option Instant)
    (log : LogEntry) : List (Nat × DayData) × Option Segment × Option Instant :=
  let eventTime := log.timestamp
  let eventDate := log.timestamp.day
  let dailyHours := ensureDay st.1 eventDate
  let closing :=
    match st.2.1 with
    | some seg =>
      if log.timestampType = TsType.WBS_CHANGE ∨ log.timestampType = TsType.CLOCK_OUT ∨
          log.timestampType = TsType.BREAK_START then
        let duration : ℚ := ((eventTime.toMillis : ℚ) - seg.startTime.toMillis) / 3600000
        let seg := { seg with endTime := some eventTime, totalHours := toFixed3 duration }
        (modifyDay dailyHours eventDate
          (fun day => { day with allocations := day.allocations ++ [seg] }),
          (none : Option Segment))
      else (dailyHours, some seg)
    | none => (dailyHours, none)
  let currentSegment :=
    if log.timestampType = TsType.CLOCK_IN ∨ log.timestampType = TsType.WBS_CHANGE ∨
        log.timestampType = TsType.BREAK_END then
      some { startTime := eventTime, wbsCode := log.wbsCode, endTime := none,
             totalHours := (0 : ℚ) }
    else closing.2
  match log.timestampType, st.2.2 with
  | .BREAK_START, _ => (closing.1, currentSegment, some eventTime)
  | .BREAK_END, some currentBreak =>
    let breakDuration : ℚ := ((eventTime.toMillis : ℚ) - currentBreak.toMillis) / 3600000
    (modifyDay closing.1 eventDate
      (fun day => { day with totalHours := day.totalHours - breakDuration }),
      currentSegment, none)
  | _, _ => (closing.1, currentSegment, st.2.2)

/-- A day after the totals pass: the running total is overwritten by the
sum of the day's allocation hours, then split at the 8-hour threshold. -/
structure DayTotals where
  totalHours : ℚ
  dailyRegularHours : ℚ
  dailyOvertimeHours : ℚ
  allocations : List Segment
deriving DecidableEq, Repr

/-- The per-day totals pass (`Object.values(dailyHours).forEach`):
`totalHours` is recomputed from the allocations, discarding the value
accumulated in the walk. -/
def processDay (day : DayData) : DayTotals :=
  let t := day.allocations.foldl (fun acc seg => acc + seg.totalHours) 0
  { totalHours := t, dailyRegularHours := min t 8,
    dailyOvertimeHours := max 0 (t - 8), allocations := day.allocations }

/-- The weekly summary. -/
structure WeeklySummary where
  totalHours : ℚ
  regularHours : ℚ
  overtimeHours : ℚ
deriving DecidableEq, Repr

/-- The weekly pass: sum daily totals and daily regular hours, move any
regular-hour excess above 40 into weekly overtime, and add the summed
daily overtime; all three outputs pass through `toFixed(2)`. -/
def weeklySummaryOf (days : List DayTotals) : WeeklySummary :=
  let totalHours := days.foldl (fun a d => a + d.totalHours) 0
  let regularSum := days.foldl (fun a d => a + d.dailyRegularHours) 0
  let weeklyOvertime := max 0 (regularSum - 40)
  let regularHours := regularSum - weeklyOvertime
  let dailyOvertimeTotal := days.foldl (fun a d => a + d.dailyOvertimeHours) 0
  let overtimeHours := weeklyOvertime + dailyOvertimeTotal
  { totalHours := toFixed2 totalHours, regularHours := toFixed2 regularHours,
    overtimeHours := toFixed2 overtimeHours }

/-- `calculatePayrollDetails`: sort the fetched logs, walk them into daily
records, run the per-day totals pass and the weekly pass. -/
def calculatePayrollDetails (logs : List LogEntry) :
    List (Nat × DayTotals) × WeeklySummary :=
  let walked := (sortLogs logs).foldl payrollStep ([], none, none)
  let dailyBreakdown := walked.1.map (fun p => (p.1, processDay p.2))
  (dailyBreakdown, weeklySummaryOf (dailyBreakdown.map Prod.snd))

/-! ### Range fetch of the timesheet handler (`fetchAllLogsForRange`)

The query condition is `PK = :pk AND SK BETWEEN :start AND :end`, where the
sort key `SK` is the event's full ISO-8601 timestamp string while `:start`
and `:end` are the raw `startDate`/`endDate` query parameters.  DynamoDB
compares string keys as their UTF-8 bytes, modelled here directly. -/

/-- A stored log item viewed by its string sort key (the ISO timestamp). -/
structure TsLogItem where
  sk : String
deriving DecidableEq, Repr

/-- Lexicographic order on byte lists (DynamoDB string-key comparison). -/
def bytesLe : List Nat → List Nat → Bool
  | [], _ => true
  | _ :: _, [] => false
  | a :: as, b :: bs => if a < b then true else if b < a then false else bytesLe as bs

/-- DynamoDB string-key comparison `s ≤ t` over UTF-8 bytes. -/
def strLe (s t : String) : Bool := bytesLe (utf8Bytes s) (utf8Bytes t)

/-- The `BETWEEN :start AND :end` condition applied to a sort key. -/
def skInRange (startDate endDate sk : String) : Bool :=
  strLe startDate sk && strLe sk endDate

/-- The range fetch: all items of the employee partition whose sort key
lies between the two raw date parameters. -/
def fetchAllLogsForRange (ledger : List TsLogItem) (startDate endDate : String) :
    List TsLogItem :=
  ledger.filter (fun e => skInRange startDate endDate e.sk)

/-- Characters before the first `'T'` of a character list. -/
def takeUntilT : List Char → List Char
  | [] => []
  | c :: t => if c = 'T' then [] else c :: takeUntilT t

/-- The calendar-date component of an ISO timestamp string,
`timestamp.split('T')[0]`. -/
def dateOnly (timestamp : String) : String := String.mk (takeUntilT timestamp.data)

/-! ### Latest-sequence reader (`dev-getTimestampSequence.js`) -/

/-- The response body of the latest-sequence endpoint. -/
structure SequenceBody where
  latestSequenceNumber : Nat
  latestTimestamp : Option Instant
  latestTimestampType : Option TsType
  hashChain : Option String
deriving DecidableEq, Repr

/-- The latest-sequence handler: authorization and ownership gates,
employee-existence gate, then the descending `Limit: 1` read with `?? 0` /
`?? null` defaults when no log exists. -/
def getTimestampSequence (authorized ownershipOk employeeExists : Bool)
    (ledger : List LogEntry) : Nat × Option SequenceBody :=
  if ¬authorized then (403, none)
  else if ¬ownershipOk then (403, none)
  else if ¬employeeExists then (404, none)
  else
    let latestLog := latestEntry ledger
    (200, some
      { latestSequenceNumber := (latestLog.map (fun l => l.sequenceNumber)).getD 0,
        latestTimestamp := latestLog.map (fun l => l.timestamp),
        latestTimestampType := latestLog.map (fun l => l.timestampType),
        hashChain := latestLog.map (fun l => l.hashChain) })

/-! ### Concrete fixtures -/

/-- A stored log entry for employee `E1` (sequence/hash fields defaulted;
only the fields read by the aggregators matter in these scenarios). -/
def sampleLog (day msec : Nat) (t : TsType) (w : Option String) : LogEntry :=
  ⟨"E1", ⟨day, msec⟩, t, 1, none, w, "GENESIS"⟩

/-- A day whose event set holds two `CLOCK_IN`s (08:00 and 09:00) and one
`CLOCK_OUT` (16:00). -/
def dayWithTwoClockIns : List LogEntry :=
  [sampleLog 20000 28800000 .CLOCK_IN none,
   sampleLog 20000 32400000 .CLOCK_IN none,
   sampleLog 20000 57600000 .CLOCK_OUT none]

/-- A day with clock-in 08:00, break 10:00–10:15, clock-out 16:00: closed
segments of 2 h and 5.75 h plus one 15-minute break. -/
def breakDayLogs : List LogEntry :=
  [sampleLog 20000 28800000 .CLOCK_IN (some "W1"),
   sampleLog 20000 36000000 .BREAK_START (some "W1"),
   sampleLog 20000 36900000 .BREAK_END (some "W1"),
   sampleLog 20000 57600000 .CLOCK_OUT (some "W1")]

/-- Five consecutive days, each clock-in 08:00 and clock-out 17:00: one
9-hour segment per day. -/
def fiveNineHourDays : List LogEntry :=
  (List.range 5).flatMap (fun k =>
    [sampleLog (20000 + k) 28800000 .CLOCK_IN (some "W1"),
     sampleLog (20000 + k) 61200000 .CLOCK_OUT (some "W1")])

/-! ### C10 — latest sequence of an empty ledger -/

/-- C10: for an authorized caller and an existing employee whose ledger is
empty, `getTimestampSequence` succeeds with status 200 and returns
`latestSequenceNumber = 0` and null timestamp, type and hash chain. -/
theorem c10_theorem :
    getTimestampSequence true true true [] =
      (200, some { latestSequenceNumber := 0, latestTimestamp := none,
                   latestTimestampType := none, hashChain := none }) := by
  rfl

/-! ### C7 — attendance clock-boundary check -/

instance exceptDecEq {ε α : Type} [DecidableEq ε] [DecidableEq α] :
    DecidableEq (Except ε α) := fun a b =>
  match a, b with
  | .ok x, .ok y => if h : x = y then isTrue (by rw [h]) else isFalse (by simp [h])
  | .error x, .error y => if h : x = y then isTrue (by rw [h]) else isFalse (by simp [h])
  | .ok _, .error _ => isFalse (by simp)
  | .error _, .ok _ => isFalse (by simp)

/-- The break loop of `processTimestampLogs` only ever fails with
`excessiveBreakDuration`. -/
theorem totalBreakMillis_ne_boundary (acc : Int) (cbs : Option Instant)
    (logs : List LogEntry) :
    totalBreakMillis acc cbs logs ≠ .error .missingClockBoundary := by
  induction logs generalizing acc cbs with
  | nil => simp [totalBreakMillis]
  | cons log rest ih =>
    cases h : log.timestampType <;> cases cbs <;>
      simp only [totalBreakMillis, h] <;>
      first
        | exact ih _ _
        | · split
            · simp
            · exact ih _ _

unseal Rat.mul Rat.inv Rat.add Rat.sub in
/-- C7 (counterexample): a day's event set with two `CLOCK_IN`s and one
`CLOCK_OUT` — hence not exactly one `CLOCK_IN` — is not rejected: the
aggregation succeeds, because the source only checks that `find` locates a
`CLOCK_IN` and a `CLOCK_OUT`, not that they are unique. -/
theorem c7_counterexample :
    (dayWithTwoClockIns.filter (fun l => l.timestampType == TsType.CLOCK_IN)).length = 2 ∧
    2 ≤ dayWithTwoClockIns.length ∧
    processTimestampLogs (fun _ => none) dayWithTwoClockIns =
      .ok { checkInTime := ⟨20000, 28800000⟩, checkOutTime := ⟨20000, 57600000⟩,
            totalHours := 8, regularHours := 8, overtimeHours := 0, breaks := 0,
            wbsCode := none, costCenter := none } := by
  refine ⟨by decide, by decide, by decide⟩

/-- C7 (amended): the aggregation fails with `MissingClockBoundary` exactly
when the day's event set contains no `CLOCK_IN` at all or no `CLOCK_OUT` at
all; duplicated boundary events are not detected (the first of each kind is
used). -/
theorem c7_theorem (wbsMeta : String → Option String) (logs : List LogEntry) :
    processTimestampLogs wbsMeta logs = .error .missingClockBoundary ↔
      (∀ l ∈ logs, l.timestampType ≠ TsType.CLOCK_IN) ∨
      (∀ l ∈ logs, l.timestampType ≠ TsType.CLOCK_OUT) := by
  unfold processTimestampLogs
  cases hci : logs.find? (fun l => l.timestampType == TsType.CLOCK_IN) with
  | none =>
    rw [List.find?_eq_none] at hci
    cases hco : logs.find? (fun l => l.timestampType == TsType.CLOCK_OUT) with
    | none =>
      exact ⟨fun _ => Or.inl (fun l hl => by simpa using hci l hl), fun _ => rfl⟩
    | some co =>
      exact ⟨fun _ => Or.inl (fun l hl => by simpa using hci l hl), fun _ => rfl⟩
  | some ci =>
    cases hco : logs.find? (fun l => l.timestampType == TsType.CLOCK_OUT) with
    | none =>
      rw [List.find?_eq_none] at hco
      exact ⟨fun _ => Or.inr (fun l hl => by simpa using hco l hl), fun _ => rfl⟩
    | some co =>
      have hcim := List.mem_of_find?_eq_some hci
      have hcit : ci.timestampType = TsType.CLOCK_IN := by
        have := List.find?_some hci
        simpa using this
      have hcom := List.mem_of_find?_eq_some hco
      have hcot : co.timestampType = TsType.CLOCK_OUT := by
        have := List.find?_some hco
        simpa using this
      constructor
      · intro h
        exfalso
        simp only at h
        split at h
        · exact absurd h (by simp)
        · cases hb : totalBreakMillis 0 none logs with
          | error e =>
            rw [hb] at h
            simp only [Except.error.injEq] at h
            exact totalBreakMillis_ne_boundary 0 none logs (h ▸ hb)
          | ok v =>
            rw [hb] at h
            simp at h
      · rintro (h | h)
        · exact absurd hcit (h ci hcim)
        · exact absurd hcot (h co hcom)

/-! ### C6 — per-day timesheet totals -/

unseal Rat.mul Rat.inv Rat.add Rat.sub in
/-- C6 (counterexample): for the 08:00–16:00 day with a 15-minute break,
the segments sum to 7.75 h and the day's reported total is 7.75 h, not the
7.5 h the claim's subtraction would give: the transient break subtraction
is overwritten when `totalHours` is recomputed from the allocations. -/
theorem c6_counterexample :
    ((calculatePayrollDetails breakDayLogs).1.map (fun p => (p.1, p.2.totalHours))) =
      [(20000, (31 : ℚ) / 4)] ∧
    ((calculatePayrollDetails breakDayLogs).1.map
      (fun p => p.2.allocations.map (fun s => s.totalHours))) =
      [[(2 : ℚ), (23 : ℚ) / 4]] ∧
    ((31 : ℚ) / 4 ≠ (2 : ℚ) + (23 : ℚ) / 4 - (1 : ℚ) / 4) := by
  refine ⟨by decide, by decide, by decide⟩

unseal Rat.mul Rat.inv Rat.add Rat.sub in
/-- C6 (amended): every day's reported total equals the plain sum of its
closed segment durations; break time is excluded only because segments
close at `BREAK_START` and reopen at `BREAK_END`, not by subtraction, so
the example day (segments 2 h + 5.75 h, one 15-minute break) totals
7.75 h. -/
theorem c6_theorem :
    (∀ logs : List LogEntry,
      ((calculatePayrollDetails logs).1.all
        (fun p => decide (p.2.totalHours =
          p.2.allocations.foldl (fun acc seg => acc + seg.totalHours) 0))) = true) ∧
    ((calculatePayrollDetails breakDayLogs).1.map (fun p => (p.1, p.2.totalHours))) =
      [(20000, (31 : ℚ) / 4)] := by
  constructor
  · intro logs
    rw [List.all_eq_true]
    intro p hp
    rw [calculatePayrollDetails] at hp
    simp only [List.mem_map] at hp
    obtain ⟨q, _, rfl⟩ := hp
    simp [processDay]
  · decide

/-! ### C2 — weekly summary arithmetic -/

/-- A day record as the per-day totals pass produces it from a day whose
allocations sum to `t` (allocations elided). -/
def dayFromTotal (t : ℚ) : DayTotals :=
  { totalHours := t, dailyRegularHours := min t 8, dailyOvertimeHours := max 0 (t - 8),
    allocations := [] }

unseal Rat.mul Rat.inv Rat.add Rat.sub in
/-- C2: the weekly summary sums the days' regular hours, moves any excess
over 40 into weekly overtime (leaving `min (Σ regular) 40` as regular), and
reports total overtime as that weekly overtime plus the summed daily
overtime; in particular five 9-hour days yield `regularHours = 40` and
`overtimeHours = 5` (with `totalHours = 45`). -/
theorem c2_theorem :
    (∀ ds : List ℚ,
      (weeklySummaryOf (ds.map dayFromTotal)).regularHours =
        toFixed2 (min (ds.foldl (fun a d => a + min d 8) 0) 40) ∧
      (weeklySummaryOf (ds.map dayFromTotal)).overtimeHours =
        toFixed2 (max 0 (ds.foldl (fun a d => a + min d 8) 0 - 40) +
          ds.foldl (fun a d => a + max 0 (d - 8)) 0)) ∧
    (calculatePayrollDetails fiveNineHourDays).2 =
      { totalHours := 45, regularHours := 40, overtimeHours := 5 } := by
  constructor
  · intro ds
    have hreg : (ds.map dayFromTotal).foldl (fun a d => a + d.dailyRegularHours) 0 =
        ds.foldl (fun a d => a + min d 8) 0 := by
      simp only [List.foldl_map, dayFromTotal]
    have hot : (ds.map dayFromTotal).foldl (fun a d => a + d.dailyOvertimeHours) 0 =
        ds.foldl (fun a d => a + max 0 (d - 8)) 0 := by
      simp only [List.foldl_map, dayFromTotal]
    constructor
    · rw [weeklySummaryOf]
      simp only [hreg]
      congr 1
      rcases le_total (ds.foldl (fun a d => a + min d 8) 0) 40 with h | h
      · rw [max_eq_left (by linarith), min_eq_left h]
        ring
      · rw [max_eq_right (by linarith), min_eq_right h]
        ring
    · rw [weeklySummaryOf]
      simp only [hreg, hot]
  · decide

/-! ### C8 — attendance idempotency guards -/

/-- The attendance record stored by a first successful creation for
employee `E1` on day 20000, under the random id `id-A`. -/
def attFirstItem : AttendanceItem :=
  { attendanceId := "id-A", gsi4pk := "ATT#E1", gsi4sk := "DATE#20000",
    employeeId := "E1", attendanceDate := 20000,
    details := { checkInTime := ⟨20000, 28800000⟩, checkOutTime := ⟨20000, 57600000⟩,
                 totalHours := 8, regularHours := 8, overtimeHours := 0, breaks := 0,
                 wbsCode := none, costCenter := none },
    workMode := "onsite", notes := none }

/-- The item a second call for the same employee and date would write,
under a different random id `id-B`. -/
def attSecondItem : AttendanceItem :=
  { attFirstItem with attendanceId := "id-B" }

/-- C8 (counterexample): the conditional-write guard is not a uniqueness
constraint keyed on (employee, date): with a record for (`E1`, day 20000)
already stored, the `attribute_not_exists(PK)` condition of a second write
for the same (employee, date) still passes, because `PK` is built from the
fresh random `attendanceId`; only the separate pre-write query is keyed on
(employee, date). -/
theorem c8_counterexample :
    attendanceKeyQuery [attFirstItem] "E1" 20000 = true ∧
    attSecondItem.employeeId = attFirstItem.employeeId ∧
    attSecondItem.attendanceDate = attFirstItem.attendanceDate ∧
    attSecondItem.attendanceId ≠ attFirstItem.attendanceId ∧
    attendancePutCondition [attFirstItem] attSecondItem = true := by
  refine ⟨by decide, by decide, by decide, by decide, by decide⟩

/-- C8 (amended): a second sequential call for the same (employee, date)
fails with the duplicate-record conflict and leaves the store unchanged —
but the guard that achieves this is the pre-write existence query on
(employee, date); the conditional write itself is keyed on the fresh
`attendanceId`. -/
theorem c8_theorem (store : List AttendanceItem) (approvedLeaves : List (Nat × Nat))
    (logsForDay : List LogEntry) (wbsMeta : String → Option String) (freshId : String)
    (employeeId : String) (attendanceDate : Nat) (workMode : String)
    (notes : Option String)
    (hdup : attendanceKeyQuery store employeeId attendanceDate = true) :
    createAttendanceRecord store approvedLeaves logsForDay wbsMeta freshId employeeId
      attendanceDate workMode notes = .error .duplicateRecord ∧
    attendanceStoreResult store approvedLeaves logsForDay wbsMeta freshId employeeId
      attendanceDate workMode notes = store := by
  have h : createAttendanceRecord store approvedLeaves logsForDay wbsMeta freshId
      employeeId attendanceDate workMode notes = .error .duplicateRecord := by
    rw [createAttendanceRecord, if_pos hdup]
  exact ⟨h, by rw [attendanceStoreResult, h]⟩

/-- C8 (witness): the amended behaviour at the concrete store holding the
first record: the second call conflicts and the store is unchanged. -/
theorem c8_witness :
    createAttendanceRecord [attFirstItem] [] dayWithTwoClockIns (fun _ => none) "id-B"
      "E1" 20000 "onsite" none = .error .duplicateRecord ∧
    attendanceStoreResult [attFirstItem] [] dayWithTwoClockIns (fun _ => none) "id-B"
      "E1" 20000 "onsite" none = [attFirstItem] := by
  exact c8_theorem [attFirstItem] [] dayWithTwoClockIns (fun _ => none) "id-B"
    "E1" 20000 "onsite" none (by decide)

/-! ### C3 — illegal transitions are rejected -/

/-- The §4.1 transition table as the spec states it (for comparison with
the source's `validTransitions`): legal next event types for each possible
last event type. -/
def specLegalNext (lastEvent nextEvent : TsType) : Prop :=
  nextEvent ∈
    (match lastEvent with
     | TsType.CLOCK_OUT => [TsType.CLOCK_IN]
     | TsType.CLOCK_IN => [TsType.BREAK_START, TsType.WBS_CHANGE, TsType.CLOCK_OUT]
     | TsType.BREAK_START => [TsType.BREAK_END, TsType.WBS_CHANGE]
     | TsType.BREAK_END => [TsType.BREAK_START, TsType.WBS_CHANGE, TsType.CLOCK_OUT]
     | TsType.WBS_CHANGE => [TsType.BREAK_START, TsType.WBS_CHANGE, TsType.CLOCK_OUT])

instance (a b : TsType) : Decidable (specLegalNext a b) := by
  unfold specLegalNext
  infer_instance

/-- The spec's §4.1 table and the source's transition map agree. -/
theorem specLegalNext_iff_validTransitions (a b : TsType) :
    specLegalNext a b ↔ b ∈ validTransitions a := by
  cases a <;> cases b <;> decide

/-- C3: when an employee's most recent event has type `last` and the
requested type is not legal from `last` per the §4.1 table, the append
fails with `InvalidTransition` naming that pair, and the ledger is
unchanged (no event is written). -/
theorem c3_theorem (ledger : List LogEntry) (timestamp : Instant)
    (req : AppendRequest) (last : LogEntry)
    (hlast : latestEntry ledger = some last)
    (hillegal : ¬ specLegalNext last.timestampType req.timestampType) :
    appendTimestamp ledger timestamp req =
      .error (.invalidTransition last.timestampType req.timestampType) ∧
    appendResult ledger timestamp req = ledger := by
  have hnotin : req.timestampType ∉ validTransitions last.timestampType := by
    rw [← specLegalNext_iff_validTransitions]
    exact hillegal
  have h : appendTimestamp ledger timestamp req =
      .error (.invalidTransition last.timestampType req.timestampType) := by
    simp only [appendTimestamp, hlast]
    rw [if_pos hnotin]
  exact ⟨h, by rw [appendResult, h]⟩

/-- C3 (witness): with a ledger whose only (hence most recent) event is a
`CLOCK_IN`, attempting another `CLOCK_IN` — a pair absent from the §4.1
table — fails with `InvalidTransition` and writes nothing. -/
theorem c3_witness :
    appendTimestamp [sampleLog 20000 28800000 .CLOCK_IN none] ⟨20000, 32400000⟩
      ⟨"E1", .CLOCK_IN, none, none⟩ =
      .error (.invalidTransition TsType.CLOCK_IN TsType.CLOCK_IN) ∧
    appendResult [sampleLog 20000 28800000 .CLOCK_IN none] ⟨20000, 32400000⟩
      ⟨"E1", .CLOCK_IN, none, none⟩ = [sampleLog 20000 28800000 .CLOCK_IN none] := by
  exact c3_theorem _ _ _ (sampleLog 20000 28800000 .CLOCK_IN none) (by decide)
    (by decide)

/-! ### C9 — date-range boundaries of the range fetch -/

/-- `bytesLe` is reflexive. -/
theorem bytesLe_refl (l : List Nat) : bytesLe l l = true := by
  induction l with
  | nil => rfl
  | cons a t ih => simp [bytesLe, ih]

/-- `bytesLe` is total. -/
theorem bytesLe_total (a b : List Nat) : bytesLe a b = true ∨ bytesLe b a = true := by
  induction a generalizing b with
  | nil => exact Or.inl rfl
  | cons x xs ih =>
    cases b with
    | nil => exact Or.inr rfl
    | cons y ys =>
      by_cases hxy : x < y
      · exact Or.inl (by simp [bytesLe, hxy])
      · by_cases hyx : y < x
        · exact Or.inr (by simp [bytesLe, hyx])
        · have hxe : x = y := Nat.le_antisymm (Nat.not_lt.mp hyx) (Nat.not_lt.mp hxy)
          subst hxe
          rcases ih ys with h' | h'
          · exact Or.inl (by simp [bytesLe, h'])
          · exact Or.inr (by simp [bytesLe, h'])

/-- `bytesLe` is antisymmetric. -/
theorem bytesLe_antisymm : ∀ a b : List Nat,
    bytesLe a b = true → bytesLe b a = true → a = b
  | [], [], _, _ => rfl
  | [], _ :: _, _, h2 => by simp [bytesLe] at h2
  | _ :: _, [], h1, _ => by simp [bytesLe] at h1
  | x :: xs, y :: ys, h1, h2 => by
    by_cases hxy : x < y
    · have : ¬ y < x := Nat.lt_asymm hxy
      simp [bytesLe, this, hxy] at h2
    · by_cases hyx : y < x
      · simp [bytesLe, hyx, hxy] at h1
      · have hxe : x = y := Nat.le_antisymm (Nat.not_lt.mp hyx) (Nat.not_lt.mp hxy)
        subst hxe
        simp only [bytesLe, lt_self_iff_false, if_false] at h1 h2
        rw [bytesLe_antisymm xs ys h1 h2]

/-- A list is at most any of its extensions. -/
theorem bytesLe_append_self (l x : List Nat) : bytesLe l (l ++ x) = true := by
  induction l with
  | nil => cases x <;> rfl
  | cons a t ih => simp [bytesLe, ih]

/-- A proper extension of a list is strictly above it. -/
theorem bytesLe_append_cons (l : List Nat) (c : Nat) (x : List Nat) :
    bytesLe (l ++ c :: x) l = false := by
  induction l with
  | nil => rfl
  | cons a t ih => simp [bytesLe, ih]

/-- Strict order between equal-length lists is preserved by appending
anything to either side. -/
theorem bytesLe_append_of_lt : ∀ (d e x y : List Nat), d.length = e.length →
    bytesLe d e = true → d ≠ e → bytesLe (d ++ x) (e ++ y) = true
  | [], [], _, _, _, _, hne => absurd rfl hne
  | [], _ :: _, _, _, hlen, _, _ => by simp at hlen
  | _ :: _, [], _, _, hlen, _, _ => by simp at hlen
  | a :: t, b :: u, x, y, hlen, hle, hne => by
    by_cases hab : a < b
    · simp [bytesLe, hab]
    · by_cases hba : b < a
      · simp [bytesLe, hba, hab] at hle
      · have hae : a = b := Nat.le_antisymm (Nat.not_lt.mp hba) (Nat.not_lt.mp hab)
        subst hae
        simp only [bytesLe, lt_self_iff_false, if_false] at hle
        have htu : t ≠ u := fun h => hne (by rw [h])
        have := bytesLe_append_of_lt t u x y (by simpa using hlen) hle htu
        simp [bytesLe, this]

/-- The `BETWEEN` condition at byte level: for a key that properly extends
a date `d` of the same byte length as both bounds, the key is in range
exactly when `s ≤ d` and `d < e` — the start bound is inclusive in the
date, the end bound exclusive. -/
theorem bytesLe_between_iff (s e d x : List Nat) (hx : x ≠ [])
    (h1 : d.length = s.length) (h2 : d.length = e.length) :
    (bytesLe s (d ++ x) = true ∧ bytesLe (d ++ x) e = true) ↔
      (bytesLe s d = true ∧ bytesLe e d = false) := by
  obtain ⟨c, x', rfl⟩ : ∃ c x', x = c :: x' := by
    cases x with
    | nil => exact absurd rfl hx
    | cons c x' => exact ⟨c, x', rfl⟩
  constructor
  · rintro ⟨hs, he⟩
    constructor
    · by_contra hsd
      have hsd' : bytesLe s d = false := by
        cases h : bytesLe s d
        · rfl
        · exact absurd h hsd
      have hds : bytesLe d s = true := by
        rcases bytesLe_total s d with h | h
        · rw [h] at hsd'; cases hsd'
        · exact h
      have hne : d ≠ s := by
        rintro rfl
        rw [bytesLe_refl] at hsd'
        cases hsd'
      have hlt : bytesLe (d ++ c :: x') (s ++ []) = true :=
        bytesLe_append_of_lt d s (c :: x') [] h1 hds hne
      rw [List.append_nil] at hlt
      have := bytesLe_antisymm _ _ hs hlt
      have hlen := congrArg List.length this
      simp [h1] at hlen
    · by_contra hed
      have hed' : bytesLe e d = true := by
        cases h : bytesLe e d
        · exact absurd h hed
        · rfl
      by_cases hde : d = e
      · subst hde
        rw [bytesLe_append_cons] at he
        cases he
      · have hne : e ≠ d := fun h => hde h.symm
        have hlt : bytesLe (e ++ []) (d ++ c :: x') = true :=
          bytesLe_append_of_lt e d [] (c :: x') h2.symm hed' hne
        rw [List.append_nil] at hlt
        have := bytesLe_antisymm _ _ he hlt
        have hlen := congrArg List.length this
        simp [h2] at hlen
  · rintro ⟨hsd, hed⟩
    have hde : d ≠ e := by
      rintro rfl
      rw [bytesLe_refl] at hed
      cases hed
    have hdle : bytesLe d e = true := by
      rcases bytesLe_total d e with h | h
      · exact h
      · rw [h] at hed; cases hed
    constructor
    · by_cases hsd' : s = d
      · subst hsd'
        exact bytesLe_append_self s (c :: x')
      · have := bytesLe_append_of_lt s d [] (c :: x') h1.symm hsd hsd'
        rwa [List.append_nil] at this
    · have := bytesLe_append_of_lt d e (c :: x') [] h2 hdle hde
      rwa [List.append_nil] at this

/-- UTF-8 encoding distributes over string append. -/
theorem utf8Bytes_append (s t : String) :
    utf8Bytes (s ++ t) = utf8Bytes s ++ utf8Bytes t := by
  simp [utf8Bytes, String.data_append]

/-- C9 (amended): for a stored timestamp of the form `d ++ "T" ++ r` and
date-string bounds of the same byte length as `d`, the `BETWEEN` filter
keeps the event exactly when `startDate ≤ d` and `d < endDate` in DynamoDB
string order: the start date is inclusive but the end date is exclusive —
an event whose calendar-date component equals `endDate` is not fetched,
because its full timestamp sorts strictly above the bare date string. -/
theorem c9_theorem (startDate endDate d r : String)
    (h1 : (utf8Bytes d).length = (utf8Bytes startDate).length)
    (h2 : (utf8Bytes d).length = (utf8Bytes endDate).length) :
    skInRange startDate endDate (d ++ "T" ++ r) = true ↔
      (strLe startDate d = true ∧ strLe endDate d = false) := by
  have hx : utf8Bytes ("T" ++ r) ≠ [] := by
    rw [utf8Bytes_append]
    intro h
    have := congrArg List.length h
    simp [utf8Bytes, utf8Char] at this
  have hkey : utf8Bytes (d ++ "T" ++ r) = utf8Bytes d ++ utf8Bytes ("T" ++ r) := by
    rw [String.append_assoc, utf8Bytes_append]
  constructor
  · intro h
    rw [skInRange, Bool.and_eq_true] at h
    obtain ⟨hs, he⟩ := h
    rw [strLe, hkey] at hs he
    exact (bytesLe_between_iff _ _ _ _ hx h1 h2).mp ⟨hs, he⟩
  · intro h
    rw [skInRange, Bool.and_eq_true]
    have := (bytesLe_between_iff (utf8Bytes startDate) (utf8Bytes endDate)
      (utf8Bytes d) (utf8Bytes ("T" ++ r)) hx h1 h2).mpr h
    rw [strLe, hkey, strLe, hkey]
    exact this

/-- C9 (witness): the amended boundary behaviour at concrete dates — an
event on 2025-01-03 is inside the range 2025-01-01..2025-01-07. -/
theorem c9_witness :
    skInRange "2025-01-01" "2025-01-07" ("2025-01-03" ++ "T" ++ "08:00:00.000Z") = true ↔
      (strLe "2025-01-01" "2025-01-03" = true ∧ strLe "2025-01-07" "2025-01-03" = false) :=
  c9_theorem "2025-01-01" "2025-01-07" "2025-01-03" "08:00:00.000Z" (by decide) (by decide)

/-- C9 (counterexample): a stored event whose timestamp's calendar-date
component equals the end date of the range is not included in the fetched
set — the fetch over `2025-01-01..2025-01-07` returns nothing although the
only stored event is dated `2025-01-07`. -/
theorem c9_counterexample :
    fetchAllLogsForRange [⟨"2025-01-07T08:00:00.000Z"⟩] "2025-01-01" "2025-01-07" = [] ∧
    dateOnly "2025-01-07T08:00:00.000Z" = "2025-01-07" := by
  refine ⟨by decide, by decide⟩

/-! ### Chain well-formedness and the ledger-build invariant -/

/-- The last element of `l`, or `prev` when `l` is empty. -/
def lastOr (prev : Option LogEntry) : List LogEntry → Option LogEntry
  | [] => prev
  | e :: rest => lastOr (some e) rest

/-- The sequence number carried by an optional predecessor (0 for none). -/
def seqOfOpt : Option LogEntry → Nat
  | none => 0
  | some p => p.sequenceNumber

/-- Well-formedness of the link between an event at 0-based position `i`
and its predecessor: correct sequence number, chain digest, previous
timestamp, strictly increasing time, and a §4.1-legal transition (first
event: `GENESIS` digest, no previous timestamp, `CLOCK_IN`). -/
def linkOk (prev : Option LogEntry) (i : Nat) (e : LogEntry) : Prop :=
  e.sequenceNumber = i + 1 ∧
  match prev with
  | none => e.hashChain = "GENESIS" ∧ e.previousTimestamp = none ∧
      e.timestampType = TsType.CLOCK_IN
  | some p => e.hashChain = generateHash p ∧ e.previousTimestamp = some p.timestamp ∧
      p.timestamp.toMillis < e.timestamp.toMillis ∧
      e.timestampType ∈ validTransitions p.timestampType

/-- Every event of the list is correctly linked to its predecessor,
starting at position `i` with predecessor `prev`. -/
def ChainedFrom : Nat → Option LogEntry → List LogEntry → Prop
  | _, _, [] => True
  | i, prev, e :: rest => linkOk prev i e ∧ ChainedFrom (i + 1) (some e) rest

/-- `lastOr` over an appended singleton. -/
theorem lastOr_append (prev : Option LogEntry) (l : List LogEntry) (x : LogEntry) :
    lastOr prev (l ++ [x]) = some x := by
  induction l generalizing prev with
  | nil => rfl
  | cons e rest ih => exact ih (some e)

/-- A ledger has no latest entry exactly when it is empty. -/
theorem latestEntry_eq_none (l : List LogEntry) : latestEntry l = none ↔ l = [] := by
  cases l with
  | nil => simp [latestEntry]
  | cons e rest =>
    cases h : latestEntry rest <;> simp [latestEntry, h] <;> split <;> simp

/-- The latest entry is a member of the ledger. -/
theorem latestEntry_mem : ∀ (l : List LogEntry) (x : LogEntry),
    latestEntry l = some x → x ∈ l
  | [], x, h => by cases h
  | e :: rest, x, h => by
    rw [latestEntry] at h
    cases hr : latestEntry rest with
    | none =>
      simp only [hr] at h
      cases h
      exact List.mem_cons_self e rest
    | some m =>
      simp only [hr] at h
      split at h
      · cases h
        exact List.mem_cons_self e rest
      · cases h
        exact List.mem_cons_of_mem e (latestEntry_mem rest x hr)

/-- Appending an entry later than everything makes it the latest entry. -/
theorem latestEntry_append_gt (l : List LogEntry) (e : LogEntry)
    (h : ∀ a ∈ l, a.timestamp.toMillis < e.timestamp.toMillis) :
    latestEntry (l ++ [e]) = some e := by
  induction l with
  | nil => rfl
  | cons a t ih =>
    rw [List.cons_append, latestEntry, ih (fun b hb => h b (List.mem_cons_of_mem a hb))]
    have ha := h a (List.mem_cons_self a t)
    simp [Nat.lt_asymm ha]

/-- Extending a well-linked list by one well-linked event. -/
theorem chainFrom_snoc : ∀ (l : List LogEntry) (i : Nat) (prev : Option LogEntry)
    (e : LogEntry), ChainedFrom i prev l → linkOk (lastOr prev l) (i + l.length) e →
    ChainedFrom i prev (l ++ [e])
  | [], i, prev, e, _, hl => ⟨by simpa using hl, trivial⟩
  | a :: t, i, prev, e, ⟨ha, ht⟩, hl => by
    refine ⟨ha, chainFrom_snoc t (i + 1) (some a) e ht ?_⟩
    have : i + (a :: t).length = i + 1 + t.length := by
      simp [List.length_cons]
      omega
    rw [← this]
    exact hl

/-- The last linked entry carries sequence number `i + length`. -/
theorem chainFrom_seq_lastOr : ∀ (l : List LogEntry) (i : Nat) (prev : Option LogEntry),
    ChainedFrom i prev l → seqOfOpt prev = i → seqOfOpt (lastOr prev l) = i + l.length
  | [], i, prev, _, hseq => by simpa [lastOr] using hseq
  | e :: rest, i, prev, ⟨he, ht⟩, _ => by
    have := chainFrom_seq_lastOr rest (i + 1) (some e) ht he.1
    simpa [lastOr, List.length_cons, Nat.add_assoc, Nat.add_comm 1 rest.length] using this

/-- Position lookup inside a well-linked list: the event at position `k`
has sequence number `i + k + 1` and is correctly linked to the entry at
position `k - 1` (to `prev` when `k = 0`). -/
theorem chainFrom_get : ∀ (l : List LogEntry) (i : Nat) (prev : Option LogEntry),
    ChainedFrom i prev l → ∀ (k : Nat) (e : LogEntry), l.get? k = some e →
      linkOk (match k with | 0 => prev | k' + 1 => l.get? k') (i + k) e
  | [], _, _, _, k, e, h => by cases h
  | a :: t, i, prev, ⟨ha, ht⟩, 0, e, h => by
    cases h
    simpa using ha
  | a :: t, i, prev, ⟨ha, ht⟩, k + 1, e, h => by
    have hrec := chainFrom_get t (i + 1) (some a) ht k e (by simpa using h)
    cases k with
    | zero =>
      simpa [Nat.add_assoc, Nat.add_comm 1] using hrec
    | succ k' =>
      show linkOk ((a :: t).get? (k' + 1)) (i + (k' + 1 + 1)) e
      have hgt : (a :: t).get? (k' + 1) = t.get? k' := by simp
      rw [hgt]
      simpa [Nat.add_assoc, Nat.add_comm 1] using hrec

set_option maxHeartbeats 1000000 in
/-- Characterization of a successful append: the new ledger is the old one
with a single item at the end whose fields are computed from the fetched
latest event (or the genesis defaults). -/
theorem appendTimestamp_ok (l : List LogEntry) (t : Instant) (req : AppendRequest)
    (l' : List LogEntry) (h : appendTimestamp l t req = .ok l') :
    ∃ item : LogEntry, l' = l ++ [item] ∧ item.timestamp = t ∧
      item.timestampType = req.timestampType ∧
      ((latestEntry l = none ∧ req.timestampType = TsType.CLOCK_IN ∧
        item.sequenceNumber = 1 ∧ item.previousTimestamp = none ∧
        item.hashChain = "GENESIS") ∨
       (∃ last, latestEntry l = some last ∧
        req.timestampType ∈ validTransitions last.timestampType ∧
        item.sequenceNumber = last.sequenceNumber + 1 ∧
        item.previousTimestamp = some last.timestamp ∧
        item.hashChain = generateHash last)) := by
  rw [appendTimestamp] at h
  cases hl : latestEntry l with
  | none =>
    simp only [hl] at h
    by_cases h1 : req.timestampType ≠ TsType.CLOCK_IN
    · rw [if_pos h1] at h
      cases h
    · rw [if_neg h1] at h
      rw [finishAppend] at h
      by_cases h2 : req.timestampType = TsType.WBS_CHANGE ∧ req.wbsChangeReason = none
      · rw [if_pos h2] at h
        cases h
      · rw [if_neg h2] at h
        by_cases h3 : l.any (fun e => e.timestamp == t) = true
        · rw [if_pos h3] at h
          cases h
        · rw [if_neg h3] at h
          cases h
          exact ⟨_, rfl, rfl, rfl, Or.inl ⟨rfl, not_not.mp h1, rfl, rfl, rfl⟩⟩
  | some last =>
    simp only [hl] at h
    by_cases h1 : req.timestampType ∉ validTransitions last.timestampType
    · rw [if_pos h1] at h
      cases h
    · rw [if_neg h1] at h
      by_cases h2 : (t.toMillis : Int) - (last.timestamp.toMillis : Int) >
          24 * 60 * 60 * 1000
      · rw [if_pos h2] at h
        cases h
      · rw [if_neg h2] at h
        rw [finishAppend] at h
        by_cases h3 : req.timestampType = TsType.WBS_CHANGE ∧ req.wbsChangeReason = none
        · rw [if_pos h3] at h
          cases h
        · rw [if_neg h3] at h
          by_cases h4 : l.any (fun e => e.timestamp == t) = true
          · rw [if_pos h4] at h
            cases h
          · rw [if_neg h4] at h
            cases h
            exact ⟨_, rfl, rfl, rfl, Or.inr ⟨last, rfl, not_not.mp h1, rfl, rfl, rfl⟩⟩

/-- The failure case leaves the ledger unchanged. -/
theorem appendResult_error (l : List LogEntry) (t : Instant) (req : AppendRequest)
    (e : AppendError) (h : appendTimestamp l t req = .error e) :
    appendResult l t req = l := by
  rw [appendResult, h]

/-- The success case yields the new ledger. -/
theorem appendResult_ok (l : List LogEntry) (t : Instant) (req : AppendRequest)
    (l' : List LogEntry) (h : appendTimestamp l t req = .ok l') :
    appendResult l t req = l' := by
  rw [appendResult, h]

/-- The build invariant: replaying any stream of append attempts whose
wall-clock timestamps strictly increase (jointly with the timestamps
already stored) preserves chain well-formedness, the identification of the
latest entry with the last stored entry, and timestamp sortedness. -/
theorem buildLedger_invariant : ∀ (steps : List AppendStep) (l : List LogEntry),
    ChainedFrom 0 none l →
    latestEntry l = lastOr none l →
    List.Pairwise (· < ·) (l.map (fun e => e.timestamp.toMillis) ++
      steps.map (fun s => s.timestamp.toMillis)) →
    ChainedFrom 0 none (buildLedger l steps) ∧
    latestEntry (buildLedger l steps) = lastOr none (buildLedger l steps) ∧
    List.Pairwise (· < ·) ((buildLedger l steps).map (fun e => e.timestamp.toMillis))
  | [], l, hchain, hlatest, hpair => by
    refine ⟨hchain, hlatest, ?_⟩
    simpa using hpair
  | s :: rest, l, hchain, hlatest, hpair => by
    rw [buildLedger]
    cases happ : appendTimestamp l s.timestamp s.req with
    | error e =>
      rw [appendResult_error l s.timestamp s.req e happ]
      refine buildLedger_invariant rest l hchain hlatest ?_
      refine hpair.sublist ?_
      refine List.Sublist.append_left ?_ _
      simp
    | ok l'' =>
      rw [appendResult_ok l s.timestamp s.req l'' happ]
      obtain ⟨item, rfl, hts, htype, hcases⟩ := appendTimestamp_ok l s.timestamp s.req l'' happ
      have hgt : ∀ a ∈ l, a.timestamp.toMillis < s.timestamp.toMillis := by
        intro a ha
        have := (List.pairwise_append.mp hpair).2.2
        exact this a.timestamp.toMillis (List.mem_map_of_mem _ ha) s.timestamp.toMillis
          (by simp)
      have hlat'' : latestEntry (l ++ [item]) = some item := by
        refine latestEntry_append_gt l item ?_
        rw [hts]
        exact hgt
      have hlast'' : lastOr none (l ++ [item]) = some item := lastOr_append none l item
      have hlink : linkOk (lastOr none l) (0 + l.length) item := by
        rcases hcases with ⟨hnone, hci, hseq, hprev, hhash⟩ | ⟨last, hsome, htr, hseq, hprev, hhash⟩
        · have hl0 : l = [] := (latestEntry_eq_none l).mp hnone
          subst hl0
          exact ⟨by simpa using hseq, hhash, hprev, htype.trans hci⟩
        · have hlast : lastOr none l = some last := hlatest ▸ hsome
          rw [hlast]
          have hseql : last.sequenceNumber = l.length := by
            have := chainFrom_seq_lastOr l 0 none hchain rfl
            rw [hlast] at this
            simpa [seqOfOpt] using this
          refine ⟨by omega, hhash, hprev, ?_, ?_⟩
          · rw [hts]
            exact hgt last (latestEntry_mem l last hsome)
          · rw [htype]
            exact htr
      have hchain'' : ChainedFrom 0 none (l ++ [item]) :=
        chainFrom_snoc l 0 none item hchain hlink
      have hpair'' : List.Pairwise (· < ·)
          ((l ++ [item]).map (fun e => e.timestamp.toMillis) ++
            rest.map (fun s => s.timestamp.toMillis)) := by
        simpa [List.map_append, hts, List.append_assoc] using hpair
      exact buildLedger_invariant rest (l ++ [item]) hchain'' (hlat''.trans hlast''.symm)
        hpair''

/-! ### Characterizing the auditor's main loop -/

/-- Cumulative `clockedIn` / `onBreak` flags after a list of events. -/
def endClockState (clockedIn onBreak : Bool) : List LogEntry → Bool × Bool
  | [] => (clockedIn, onBreak)
  | c :: rest =>
    endClockState (stepClockState clockedIn onBreak c.timestampType).1
      (stepClockState clockedIn onBreak c.timestampType).2 rest

/-- The per-event error lists produced by the auditor's main loop. -/
def auditTrace (i : Nat) (prev : Option LogEntry) (clockedIn onBreak : Bool) :
    List LogEntry → List (List String)
  | [] => []
  | c :: rest =>
    (seqChronHashErrors i prev c ++
      transitionErrors clockedIn onBreak c.timestampType) ::
      auditTrace (i + 1) (some c) (stepClockState clockedIn onBreak c.timestampType).1
        (stepClockState clockedIn onBreak c.timestampType).2 rest

/-- The auditor's fold is determined by the trace, the final clock state,
the last entry and the length. -/
theorem foldl_auditStep_eq : ∀ (L : List LogEntry) (acc : AuditAcc),
    L.foldl auditStep acc =
      { i := acc.i + L.length,
        previous := lastOr acc.previous L,
        clockedIn := (endClockState acc.clockedIn acc.onBreak L).1,
        onBreak := (endClockState acc.clockedIn acc.onBreak L).2,
        details := (auditTrace acc.i acc.previous acc.clockedIn acc.onBreak L).foldl
          classifyInto acc.details,
        results := acc.results ++ auditTrace acc.i acc.previous acc.clockedIn acc.onBreak L }
  | [], acc => by
    simp [endClockState, auditTrace, lastOr]
  | c :: rest, acc => by
    rw [List.foldl_cons, foldl_auditStep_eq rest (auditStep acc c)]
    simp only [auditStep, auditTrace, endClockState, lastOr, List.foldl_cons,
      List.length_cons, List.append_assoc, List.singleton_append]
    rw [AuditAcc.mk.injEq]
    exact ⟨by omega, rfl, rfl, rfl, rfl, rfl⟩

/-- Trace of an appended list. -/
theorem auditTrace_append : ∀ (A B : List LogEntry) (i : Nat) (prev : Option LogEntry)
    (ci ob : Bool),
    auditTrace i prev ci ob (A ++ B) =
      auditTrace i prev ci ob A ++
      auditTrace (i + A.length) (lastOr prev A) (endClockState ci ob A).1
        (endClockState ci ob A).2 B
  | [], B, i, prev, ci, ob => by simp [auditTrace, endClockState, lastOr]
  | c :: A, B, i, prev, ci, ob => by
    rw [List.cons_append, auditTrace, auditTrace,
      auditTrace_append A B (i + 1) (some c) _ _]
    simp [endClockState, lastOr, Nat.add_assoc, Nat.add_comm 1]

/-- Final clock state of an appended list. -/
theorem endClockState_append : ∀ (A B : List LogEntry) (ci ob : Bool),
    endClockState ci ob (A ++ B) =
      endClockState (endClockState ci ob A).1 (endClockState ci ob A).2 B
  | [], B, ci, ob => rfl
  | c :: A, B, ci, ob => by
    rw [List.cons_append, endClockState, endClockState_append A B _ _]
    rfl

/-- The trace has one entry per event. -/
theorem auditTrace_length : ∀ (L : List LogEntry) (i : Nat) (prev : Option LogEntry)
    (ci ob : Bool), (auditTrace i prev ci ob L).length = L.length
  | [], _, _, _, _ => rfl
  | c :: rest, i, prev, ci, ob => by
    rw [auditTrace, List.length_cons, auditTrace_length rest _ _ _ _, List.length_cons]

/-- An event with no errors adds nothing to the classes. -/
theorem classifyInto_nil (D : ErrorDetails) : classifyInto D [] = D := rfl

/-- A run of error-free events leaves the classes unchanged. -/
theorem foldl_classifyInto_replicate : ∀ (n : Nat) (D : ErrorDetails),
    (List.replicate n ([] : List String)).foldl classifyInto D = D
  | 0, D => rfl
  | n + 1, D => by
    rw [List.replicate_succ, List.foldl_cons, classifyInto_nil,
      foldl_classifyInto_replicate n D]

/-- When every date's recomputed break total is within the 4-hour limit,
the break error class is empty. -/
theorem breakErrors_eq_nil (L : List LogEntry)
    (h : ∀ p ∈ breaksByDate L, p.2 ≤ 240) : breakErrors L = [] := by
  rw [breakErrors]
  have haux : ∀ (m : List (Nat × ℚ)) (acc : List (Nat × String)), (∀ p ∈ m, p.2 ≤ 240) →
      m.foldl (fun acc p => if p.2 > 240 then
        acc ++ [(p.1, "Total break duration of " ++ toString p.2 ++
          " minutes exceeds 4-hour limit.")] else acc) acc = acc := by
    intro m
    induction m with
    | nil => intro acc _; rfl
    | cons p t ih =>
      intro acc hm
      rw [List.foldl_cons]
      have hp : ¬ p.2 > 240 := not_lt.mpr (hm p (List.mem_cons_self p t))
      rw [if_neg hp]
      exact ih acc (fun q hq => hm q (List.mem_cons_of_mem p hq))
  exact haux _ [] h

/-- The auditor flags after an event of each type, for a well-formed run. -/
def typeState : TsType → Bool × Bool
  | .CLOCK_IN => (true, false)
  | .CLOCK_OUT => (false, false)
  | .BREAK_START => (true, true)
  | .BREAK_END => (true, false)
  | .WBS_CHANGE => (true, false)

/-- The auditor flags induced by an optional predecessor. -/
def stateOfPrev : Option LogEntry → Bool × Bool
  | none => (false, false)
  | some p => typeState p.timestampType

/-- For any §4.1-legal transition other than a `WBS_CHANGE` taken while on
break, the auditor's state check is silent and its flags track
`typeState`. -/
theorem transitionStep_clean (pt ct : TsType)
    (h1 : ct ∈ validTransitions pt)
    (h2 : ¬(pt = TsType.BREAK_START ∧ ct = TsType.WBS_CHANGE)) :
    transitionErrors (typeState pt).1 (typeState pt).2 ct = [] ∧
    stepClockState (typeState pt).1 (typeState pt).2 ct = typeState ct := by
  cases pt <;> cases ct <;> revert h1 h2 <;> decide

/-- A correctly linked event passes the sequence, chronology and hash
checks. -/
theorem seqChronHash_clean (i : Nat) (prev : Option LogEntry) (c : LogEntry)
    (hlink : linkOk prev i c) : seqChronHashErrors i prev c = [] := by
  obtain ⟨hseq, hrest⟩ := hlink
  cases prev with
  | none =>
    obtain ⟨hh, _, _⟩ := hrest
    simp [seqChronHashErrors, hseq, hh]
  | some p =>
    obtain ⟨hh, _, hlt, _⟩ := hrest
    simp [seqChronHashErrors, hseq, hh, not_le.mpr hlt]

/-- A well-linked ledger slice with no `WBS_CHANGE` straight after a
`BREAK_START` leaves a clean trace, and the auditor's flags after it are
those of its last event. -/
theorem auditTrace_clean : ∀ (L : List LogEntry) (i : Nat) (prev : Option LogEntry),
    ChainedFrom i prev L →
    (∀ p c, prev = some p → L.head? = some c →
      ¬(p.timestampType = TsType.BREAK_START ∧ c.timestampType = TsType.WBS_CHANGE)) →
    List.Chain' (fun a b => ¬(a.timestampType = TsType.BREAK_START ∧
      b.timestampType = TsType.WBS_CHANGE)) L →
    auditTrace i prev (stateOfPrev prev).1 (stateOfPrev prev).2 L =
      List.replicate L.length [] ∧
    endClockState (stateOfPrev prev).1 (stateOfPrev prev).2 L =
      stateOfPrev (lastOr prev L)
  | [], _, _, _, _, _ => ⟨rfl, rfl⟩
  | c :: rest, i, prev, ⟨hc, hrest⟩, hbound, hchain => by
    have hseqchron := seqChronHash_clean i prev c hc
    have htrans : transitionErrors (stateOfPrev prev).1 (stateOfPrev prev).2
        c.timestampType = [] ∧
        stepClockState (stateOfPrev prev).1 (stateOfPrev prev).2 c.timestampType =
          typeState c.timestampType := by
      cases prev with
      | none =>
        obtain ⟨_, _, _, hty⟩ := hc
        rw [hty]
        exact ⟨rfl, rfl⟩
      | some p =>
        obtain ⟨_, _, _, _, htr⟩ := hc
        exact transitionStep_clean p.timestampType c.timestampType htr
          (hbound p c rfl rfl)
    have hrec := auditTrace_clean rest (i + 1) (some c) hrest
      (by
        intro p d hp hd
        cases hp
        exact (List.chain'_cons'.mp hchain).1 d hd)
      (List.chain'_cons'.mp hchain).2
    rw [stateOfPrev] at hrec
    constructor
    · rw [auditTrace, hseqchron, htrans.1, htrans.2, List.nil_append,
        List.length_cons, List.replicate_succ]
      rw [hrec.1]
    · rw [endClockState, htrans.2]
      have : lastOr prev (c :: rest) = lastOr (some c) rest := rfl
      rw [this, ← hrec.2]

/-- Assembly of the final report from the trace, final flags and break
errors (the tail of `runAudit` after the main loop). -/
def assembleAudit (n : Nat) (trace : List (List String)) (st : Bool × Bool)
    (breaks : List (Nat × String)) : AuditReport :=
  let D := trace.foldl classifyInto ErrorDetails.empty
  let dets : ErrorDetails :=
    { D with
      state := D.state ++
        (if st.1 then [["Final State Error: Employee is still clocked in."]] else []) ++
        (if st.2 then [["Final State Error: Employee is still on break."]] else []),
      breaks := breaks }
  let overallValid := dets.sequence.isEmpty && dets.chronological.isEmpty &&
    dets.hash.isEmpty && dets.state.isEmpty && dets.breaks.isEmpty
  { totalLogs := n, errorDetails := dets, validationResults := trace,
    validationStatus := if overallValid then "VALID" else "INVALID" }

/-- `runAudit` decomposes into trace, final flags and break errors. -/
theorem runAudit_eq (L : List LogEntry) :
    runAudit L = assembleAudit L.length (auditTrace 0 none false false L)
      (endClockState false false L) (breakErrors L) := by
  rw [runAudit, foldl_auditStep_eq, assembleAudit]
  rfl

/-- A ledger with a clean trace, clocked-out final flags and empty break
errors audits fully clean. -/
theorem runAudit_clean_of (L : List LogEntry)
    (htrace : auditTrace 0 none false false L = List.replicate L.length [])
    (hstate : endClockState false false L = (false, false))
    (hbreaks : breakErrors L = []) :
    runAudit L =
      { totalLogs := L.length, errorDetails := ErrorDetails.empty,
        validationResults := List.replicate L.length [],
        validationStatus := "VALID" } := by
  rw [runAudit_eq, htrace, hstate, hbreaks, assembleAudit,
    foldl_classifyInto_replicate]
  rfl

/-! ### C1 — auditing ledgers built from accepted appends -/

/-- The first accepted event of the concrete scenario: `CLOCK_IN` at 08:00
with WBS code `ENG-1`. -/
def c1FirstEntry : LogEntry :=
  ⟨"E1", ⟨20000, 28800000⟩, .CLOCK_IN, 1, none, some "ENG-1", "GENESIS"⟩

/-- The second accepted event: `CLOCK_OUT` at 16:00, hash-chained to the
first. -/
def c1SecondEntry : LogEntry :=
  ⟨"E1", ⟨20000, 57600000⟩, .CLOCK_OUT, 2, some ⟨20000, 28800000⟩, some "ENG-1",
    generateHash c1FirstEntry⟩

/-- An accepted `CLOCK_IN` append request at 08:00. -/
def clockInStep : AppendStep := ⟨⟨20000, 28800000⟩, ⟨"E1", .CLOCK_IN, some "ENG-1", none⟩⟩

/-- An accepted `CLOCK_OUT` append request at 16:00. -/
def clockOutStep : AppendStep := ⟨⟨20000, 57600000⟩, ⟨"E1", .CLOCK_OUT, none, none⟩⟩

/-- The two-step accepted scenario clock-in / clock-out. -/
def acceptedDaySteps : List AppendStep := [clockInStep, clockOutStep]

unseal Rat.mul Rat.inv Rat.add Rat.sub in
/-- C1 (counterexample): a ledger built from a single accepted append — a
lone `CLOCK_IN` — is audited as `INVALID`: the final-state check flags that
the employee is still clocked in, although every event was accepted by the
ledger and is individually error-free. -/
theorem c1_counterexample :
    buildLedger [] [clockInStep] = [c1FirstEntry] ∧
    (runAudit [c1FirstEntry]).validationStatus = "INVALID" ∧
    (runAudit [c1FirstEntry]).errorDetails.state =
      [["Final State Error: Employee is still clocked in."]] ∧
    (runAudit [c1FirstEntry]).validationResults = [[]] := by
  refine ⟨rfl, by decide, by decide, by decide⟩

/-- C1 (amended): a ledger built exclusively from accepted appends (from an
empty ledger) audits as `VALID` with all five error classes empty and a
clean per-event log, provided the append timestamps strictly increase, no
`WBS_CHANGE` was appended directly after a `BREAK_START` (a §4.1-legal
sequence the auditor's replay nevertheless flags), every date's recomputed
break total is within the 4-hour audit limit, and the ledger ends with a
`CLOCK_OUT` (otherwise the final-state check reports an error). -/
theorem c1_theorem (steps : List AppendStep)
    (hmono : List.Pairwise (· < ·) (steps.map (fun s => s.timestamp.toMillis)))
    (hnoWB : List.Chain' (fun a b => ¬(a.timestampType = TsType.BREAK_START ∧
      b.timestampType = TsType.WBS_CHANGE)) (buildLedger [] steps))
    (hbreaks : ∀ p ∈ breaksByDate (buildLedger [] steps), p.2 ≤ 240)
    (hlast : (lastOr none (buildLedger [] steps)).map (fun e => e.timestampType) =
      some TsType.CLOCK_OUT) :
    runAudit (buildLedger [] steps) =
      { totalLogs := (buildLedger [] steps).length,
        errorDetails := ErrorDetails.empty,
        validationResults := List.replicate (buildLedger [] steps).length [],
        validationStatus := "VALID" } := by
  obtain ⟨hchain, -, -⟩ :=
    buildLedger_invariant steps [] trivial rfl (by simpa using hmono)
  have hclean := auditTrace_clean (buildLedger [] steps) 0 none hchain
    (by intro p c hp _; cases hp) hnoWB
  have hstate : endClockState false false (buildLedger [] steps) = (false, false) := by
    have h2 : endClockState false false (buildLedger [] steps) =
        stateOfPrev (lastOr none (buildLedger [] steps)) := hclean.2
    rw [h2]
    cases hl : lastOr none (buildLedger [] steps) with
    | none => rfl
    | some p =>
      rw [hl] at hlast
      have hp : p.timestampType = TsType.CLOCK_OUT := by simpa using hlast
      rw [stateOfPrev, hp]
      rfl
  exact runAudit_clean_of _ hclean.1 hstate (breakErrors_eq_nil _ hbreaks)

unseal Rat.mul Rat.inv Rat.add Rat.sub in
/-- C1 (witness): the concrete accepted clock-in / clock-out day audits
fully clean. -/
theorem c1_witness :
    runAudit (buildLedger [] acceptedDaySteps) =
      { totalLogs := (buildLedger [] acceptedDaySteps).length,
        errorDetails := ErrorDetails.empty,
        validationResults := List.replicate (buildLedger [] acceptedDaySteps).length [],
        validationStatus := "VALID" } :=
  c1_theorem acceptedDaySteps (by decide)
    (by
      rw [show buildLedger [] acceptedDaySteps = [c1FirstEntry, c1SecondEntry] from rfl]
      exact List.chain'_cons.mpr ⟨by decide, List.chain'_singleton _⟩)
    (by decide) (by decide)

/-! ### C4 — sequence numbers and chain links of accepted appends -/

/-- C4: in a ledger built exclusively from accepted appends under a
strictly increasing clock, the event at 0-based position `k` (the
`k + 1`-st accepted event) has sequence number `k + 1`; the first event
has the `GENESIS` digest and no previous timestamp; every later event
carries the digest of its predecessor and the predecessor's timestamp —
failed attempts write nothing and leave no gaps. -/
theorem c4_theorem (steps : List AppendStep)
    (hmono : List.Pairwise (· < ·) (steps.map (fun s => s.timestamp.toMillis))) :
    ∀ (k : Nat) (e : LogEntry), (buildLedger [] steps).get? k = some e →
      e.sequenceNumber = k + 1 ∧
      (k = 0 → e.hashChain = "GENESIS" ∧ e.previousTimestamp = none) ∧
      (∀ p : LogEntry, k ≠ 0 → (buildLedger [] steps).get? (k - 1) = some p →
        e.hashChain = generateHash p ∧ e.previousTimestamp = some p.timestamp) := by
  obtain ⟨hchain, -, -⟩ :=
    buildLedger_invariant steps [] trivial rfl (by simpa using hmono)
  intro k e hk
  have hlink := chainFrom_get _ 0 none hchain k e hk
  cases k with
  | zero =>
    obtain ⟨hseq, hh, hp, -⟩ := hlink
    exact ⟨by simpa using hseq, fun _ => ⟨hh, hp⟩, fun p h0 _ => absurd rfl h0⟩
  | succ k' =>
    refine ⟨by simpa using hlink.1, fun h => absurd h (Nat.succ_ne_zero k'), ?_⟩
    intro p _ hp
    have hlink' := hlink
    rw [show (k' + 1 - 1) = k' from rfl] at hp
    rw [show (match k' + 1 with
      | 0 => (none : Option LogEntry)
      | k' + 1 => (buildLedger [] steps).get? k') =
      (buildLedger [] steps).get? k' from rfl, hp] at hlink'
    obtain ⟨-, hh, hpts, -, -⟩ := hlink'
    exact ⟨hh, hpts⟩

/-- C4 (witness): in the concrete two-append scenario the second accepted
event has sequence number 2, the digest of the first event and the first
event's timestamp. -/
theorem c4_witness :
    List.Pairwise (· < ·) (acceptedDaySteps.map (fun s => s.timestamp.toMillis)) ∧
    (buildLedger [] acceptedDaySteps).get? 1 = some c1SecondEntry ∧
    c1SecondEntry.sequenceNumber = 1 + 1 ∧
    (buildLedger [] acceptedDaySteps).get? 0 = some c1FirstEntry ∧
    c1SecondEntry.hashChain = generateHash c1FirstEntry ∧
    c1SecondEntry.previousTimestamp = some c1FirstEntry.timestamp := by
  have hmono : List.Pairwise (· < ·)
      (acceptedDaySteps.map (fun s => s.timestamp.toMillis)) := by decide
  have hget : (buildLedger [] acceptedDaySteps).get? 1 = some c1SecondEntry := rfl
  have h := c4_theorem acceptedDaySteps hmono 1 c1SecondEntry hget
  refine ⟨hmono, hget, h.1, rfl, ?_, ?_⟩
  · exact (h.2.2 c1FirstEntry (by decide) rfl).1
  · exact (h.2.2 c1FirstEntry (by decide) rfl).2

/-! ### C5 — corrupted hash chains and the substring classifier -/

/-- The chain digest does not cover the stored `hashChain` field itself. -/
theorem generateHash_setHash (e : LogEntry) (v : String) :
    generateHash { e with hashChain := v } = generateHash e := rfl

/-- The trace after a predecessor does not depend on the predecessor's
stored `hashChain` (only on its recomputed digest, which ignores it). -/
theorem auditTrace_prevHash (B : List LogEntry) (i : Nat) (e : LogEntry) (v : String)
    (ci ob : Bool) :
    auditTrace i (some { e with hashChain := v }) ci ob B =
      auditTrace i (some e) ci ob B := by
  cases B with
  | nil => rfl
  | cons c rest => rfl

/-- Corrupting one entry's `hashChain` does not change the final flags. -/
theorem endClockState_setHash (A B : List LogEntry) (e : LogEntry) (v : String)
    (ci ob : Bool) :
    endClockState ci ob (A ++ { e with hashChain := v } :: B) =
      endClockState ci ob (A ++ e :: B) := by
  rw [endClockState_append, endClockState_append]
  rfl

/-- Corrupting one entry's `hashChain` does not change the break table. -/
theorem breaksByDate_setHash (A B : List LogEntry) (e : LogEntry) (v : String) :
    breaksByDate (A ++ { e with hashChain := v } :: B) = breaksByDate (A ++ e :: B) := by
  rw [breaksByDate, breaksByDate, List.foldl_append, List.foldl_append]
  rfl

/-- Corrupting one entry's `hashChain` does not change the break errors. -/
theorem breakErrors_setHash (A B : List LogEntry) (e : LogEntry) (v : String) :
    breakErrors (A ++ { e with hashChain := v } :: B) = breakErrors (A ++ e :: B) := by
  rw [breakErrors, breakErrors, breaksByDate_setHash]

/-- A silent single-message check has a false condition. -/
theorem ite_singleton_eq_nil {c : Prop} [Decidable c] {x : String}
    (h : (if c then [x] else []) = ([] : List String)) : ¬ c := by
  intro hc
  rw [if_pos hc] at h
  cases h

/-- Classifying a lone message that only the hash substring test matches. -/
theorem classifyInto_hashClass (D : ErrorDetails) (msg : String)
    (h1 : strIncludes msg "sequence" = false)
    (h2 : strIncludes msg "chronological" = false)
    (h3 : strIncludes msg "Hash" = true)
    (h4 : strIncludes msg "Cannot" = false)
    (h5 : strIncludes msg "Invalid state" = false) :
    classifyInto D [msg] = { D with hash := D.hash ++ [[msg]] } := by
  rw [classifyInto]
  simp [h1, h2, h3, h4, h5]

/-- Classifying a lone message that no substring test matches: the entry is
recorded nowhere. -/
theorem classifyInto_noClass (D : ErrorDetails) (msg : String)
    (h1 : strIncludes msg "sequence" = false)
    (h2 : strIncludes msg "chronological" = false)
    (h3 : strIncludes msg "Hash" = false)
    (h4 : strIncludes msg "Cannot" = false)
    (h5 : strIncludes msg "Invalid state" = false) :
    classifyInto D [msg] = D := by
  rw [classifyInto]
  simp [h1, h2, h3, h4, h5]

/-- Corrupting the stored hash of an event with a non-first clean link
yields exactly the hash-mismatch message. -/
theorem seqChronHash_setHash_some (i : Nat) (p e : LogEntry) (v : String)
    (hclean : seqChronHashErrors i (some p) e = [])
    (hv : v ≠ generateHash p) :
    seqChronHashErrors i (some p) { e with hashChain := v } = ["Hash mismatch."] := by
  simp only [seqChronHashErrors] at hclean ⊢
  rcases List.append_eq_nil.mp hclean with ⟨hs, hrest⟩
  rcases List.append_eq_nil.mp hrest with ⟨hc, -⟩
  rw [if_neg (ite_singleton_eq_nil hs), if_neg (ite_singleton_eq_nil hc), if_pos hv]
  rfl

/-- Corrupting the stored hash of a clean first event yields exactly the
genesis message. -/
theorem seqChronHash_setHash_none (i : Nat) (e : LogEntry) (v : String)
    (hclean : seqChronHashErrors i none e = [])
    (hv : v ≠ "GENESIS") :
    seqChronHashErrors i none { e with hashChain := v } =
      ["First hash should be GENESIS."] := by
  simp only [seqChronHashErrors] at hclean ⊢
  rcases List.append_eq_nil.mp hclean with ⟨hs, -⟩
  rw [if_neg (ite_singleton_eq_nil hs), if_pos hv]
  rfl

/-- Unfolding one step of the trace. -/
theorem auditTrace_cons (i : Nat) (prev : Option LogEntry) (s1 s2 : Bool)
    (e : LogEntry) (B : List LogEntry) :
    auditTrace i prev s1 s2 (e :: B) =
      (seqChronHashErrors i prev e ++ transitionErrors s1 s2 e.timestampType) ::
      auditTrace (i + 1) (some e) (stepClockState s1 s2 e.timestampType).1
        (stepClockState s1 s2 e.timestampType).2 B := rfl

/-- Unfolding one step of the trace at a hash-corrupted event: only the
event's own hash check sees the corruption. -/
theorem auditTrace_cons_setHash (i : Nat) (prev : Option LogEntry) (s1 s2 : Bool)
    (e : LogEntry) (v : String) (B : List LogEntry) :
    auditTrace i prev s1 s2 ({ e with hashChain := v } :: B) =
      (seqChronHashErrors i prev { e with hashChain := v } ++
        transitionErrors s1 s2 e.timestampType) ::
      auditTrace (i + 1) (some e) (stepClockState s1 s2 e.timestampType).1
        (stepClockState s1 s2 e.timestampType).2 B := by
  rw [auditTrace_cons, auditTrace_prevHash]

/-- C5 (amended): in a ledger that audits fully clean, corrupting the
stored `hashChain` of a non-first event makes the audit report `INVALID`
with exactly one hash-class error (and nothing else); but corrupting the
first event's `hashChain` only records the message `First hash should be
GENESIS.` in the per-event log — the substring classifier tests for
`"Hash"` and never files it, so every class stays empty and the status
remains `VALID`. -/
theorem c5_theorem (A : List LogEntry) (e : LogEntry) (B : List LogEntry) (v : String)
    (Hclean : runAudit (A ++ e :: B) =
      { totalLogs := (A ++ e :: B).length, errorDetails := ErrorDetails.empty,
        validationResults := List.replicate (A ++ e :: B).length [],
        validationStatus := "VALID" }) :
    (∀ p : LogEntry, lastOr none A = some p → v ≠ generateHash p →
      runAudit (A ++ { e with hashChain := v } :: B) =
        { totalLogs := (A ++ e :: B).length,
          errorDetails := { ErrorDetails.empty with hash := [["Hash mismatch."]] },
          validationResults := List.replicate A.length [] ++
            ["Hash mismatch."] :: List.replicate B.length [],
          validationStatus := "INVALID" }) ∧
    (A = [] → v ≠ "GENESIS" →
      runAudit ({ e with hashChain := v } :: B) =
        { totalLogs := (A ++ e :: B).length, errorDetails := ErrorDetails.empty,
          validationResults := ["First hash should be GENESIS."] ::
            List.replicate B.length [],
          validationStatus := "VALID" }) := by
  constructor
  · intro p hpA hv
    have h0 : assembleAudit (A ++ e :: B).length
        (auditTrace 0 none false false (A ++ e :: B))
        (endClockState false false (A ++ e :: B)) (breakErrors (A ++ e :: B)) =
        { totalLogs := (A ++ e :: B).length, errorDetails := ErrorDetails.empty,
          validationResults := List.replicate (A ++ e :: B).length [],
          validationStatus := "VALID" } := (runAudit_eq _).symm.trans Hclean
    have htrace : auditTrace 0 none false false (A ++ e :: B) =
        List.replicate (A ++ e :: B).length [] :=
      congrArg AuditReport.validationResults h0
    have hbrk : breakErrors (A ++ e :: B) = [] :=
      congrArg (fun r => r.errorDetails.breaks) h0
    have hstpair : ErrorDetails.empty.state ++
        (if (endClockState false false (A ++ e :: B)).1 then
          [["Final State Error: Employee is still clocked in."]] else []) ++
        (if (endClockState false false (A ++ e :: B)).2 then
          [["Final State Error: Employee is still on break."]] else []) = [] := by
      have hs := congrArg (fun r => r.errorDetails.state) h0
      simp only [assembleAudit] at hs
      rw [htrace, foldl_classifyInto_replicate] at hs
      exact hs
    have hstate : endClockState false false (A ++ e :: B) = (false, false) := by
      rcases List.append_eq_nil.mp hstpair with ⟨h12, h2⟩
      rcases List.append_eq_nil.mp h12 with ⟨-, h1⟩
      have hb1 : (endClockState false false (A ++ e :: B)).1 = false := by
        cases hb : (endClockState false false (A ++ e :: B)).1
        · rfl
        · rw [hb, if_pos rfl] at h1
          cases h1
      have hb2 : (endClockState false false (A ++ e :: B)).2 = false := by
        cases hb : (endClockState false false (A ++ e :: B)).2
        · rfl
        · rw [hb, if_pos rfl] at h2
          cases h2
      exact Prod.ext hb1 hb2
    rw [auditTrace_append, auditTrace_cons] at htrace
    have hmem := (List.eq_replicate_iff.mp htrace).2
    have htraceA : auditTrace 0 none false false A = List.replicate A.length [] :=
      List.eq_replicate_iff.mpr ⟨auditTrace_length A 0 none false false,
        fun b hb => hmem b (List.mem_append_left _ hb)⟩
    have herrsE : seqChronHashErrors (0 + A.length) (lastOr none A) e ++
        transitionErrors (endClockState false false A).1
          (endClockState false false A).2 e.timestampType = [] :=
      hmem _ (List.mem_append_right _ (List.mem_cons_self _ _))
    rcases List.append_eq_nil.mp herrsE with ⟨hseqE, htransE⟩
    have htraceB : auditTrace (0 + A.length + 1) (some e)
        (stepClockState (endClockState false false A).1
          (endClockState false false A).2 e.timestampType).1
        (stepClockState (endClockState false false A).1
          (endClockState false false A).2 e.timestampType).2 B =
        List.replicate B.length [] :=
      List.eq_replicate_iff.mpr ⟨auditTrace_length B _ _ _ _,
        fun b hb => hmem b (List.mem_append_right _ (List.mem_cons_of_mem _ hb))⟩
    rw [hpA] at hseqE
    have htrace' : auditTrace 0 none false false (A ++ { e with hashChain := v } :: B) =
        List.replicate A.length [] ++
          ["Hash mismatch."] :: List.replicate B.length [] := by
      rw [auditTrace_append, auditTrace_cons_setHash, htraceA, hpA,
        seqChronHash_setHash_some _ p e v hseqE hv, htransE, htraceB,
        List.append_nil]
    have hstate' : endClockState false false (A ++ { e with hashChain := v } :: B) =
        (false, false) := (endClockState_setHash A B e v false false).trans hstate
    have hbrk' : breakErrors (A ++ { e with hashChain := v } :: B) = [] :=
      (breakErrors_setHash A B e v).trans hbrk
    rw [runAudit_eq, htrace', hstate', hbrk', assembleAudit]
    rw [List.foldl_append, foldl_classifyInto_replicate, List.foldl_cons,
      classifyInto_hashClass _ _ (by decide) (by decide) (by decide) (by decide)
        (by decide), foldl_classifyInto_replicate]
    simp [ErrorDetails.empty]
  · intro hA hv
    subst hA
    simp only [List.nil_append] at Hclean ⊢
    have h0 : assembleAudit (e :: B).length (auditTrace 0 none false false (e :: B))
        (endClockState false false (e :: B)) (breakErrors (e :: B)) =
        { totalLogs := (e :: B).length, errorDetails := ErrorDetails.empty,
          validationResults := List.replicate (e :: B).length [],
          validationStatus := "VALID" } := (runAudit_eq _).symm.trans Hclean
    have htrace : auditTrace 0 none false false (e :: B) =
        List.replicate (e :: B).length [] :=
      congrArg AuditReport.validationResults h0
    have hbrk : breakErrors (e :: B) = [] :=
      congrArg (fun r => r.errorDetails.breaks) h0
    have hstpair : ErrorDetails.empty.state ++
        (if (endClockState false false (e :: B)).1 then
          [["Final State Error: Employee is still clocked in."]] else []) ++
        (if (endClockState false false (e :: B)).2 then
          [["Final State Error: Employee is still on break."]] else []) = [] := by
      have hs := congrArg (fun r => r.errorDetails.state) h0
      simp only [assembleAudit] at hs
      rw [htrace, foldl_classifyInto_replicate] at hs
      exact hs
    have hstate : endClockState false false (e :: B) = (false, false) := by
      rcases List.append_eq_nil.mp hstpair with ⟨h12, h2⟩
      rcases List.append_eq_nil.mp h12 with ⟨-, h1⟩
      have hb1 : (endClockState false false (e :: B)).1 = false := by
        cases hb : (endClockState false false (e :: B)).1
        · rfl
        · rw [hb, if_pos rfl] at h1
          cases h1
      have hb2 : (endClockState false false (e :: B)).2 = false := by
        cases hb : (endClockState false false (e :: B)).2
        · rfl
        · rw [hb, if_pos rfl] at h2
          cases h2
      exact Prod.ext hb1 hb2
    rw [auditTrace_cons, List.length_cons, List.replicate_succ] at htrace
    injection htrace with herrs htailN
    rcases List.append_eq_nil.mp herrs with ⟨hseqN, htransN⟩
    have htrace' : auditTrace 0 none false false ({ e with hashChain := v } :: B) =
        ["First hash should be GENESIS."] :: List.replicate B.length [] := by
      rw [auditTrace_cons_setHash, seqChronHash_setHash_none 0 e v hseqN hv,
        htransN, htailN, List.append_nil]
    have hstate' : endClockState false false ({ e with hashChain := v } :: B) =
        (false, false) := hstate
    have hbrk' : breakErrors ({ e with hashChain := v } :: B) = [] := hbrk
    rw [runAudit_eq, htrace', hstate', hbrk', assembleAudit]
    rw [List.foldl_cons,
      classifyInto_noClass _ _ (by decide) (by decide) (by decide) (by decide)
        (by decide), foldl_classifyInto_replicate]
    simp [ErrorDetails.empty]

unseal Rat.mul Rat.inv Rat.add Rat.sub in
/-- C5 (witness): corrupting the second event's stored hash of the clean
two-event ledger yields `INVALID` with exactly one hash-class error. -/
theorem c5_witness :
    runAudit ([c1FirstEntry] ++ { c1SecondEntry with hashChain := "corrupt" } :: []) =
      { totalLogs := ([c1FirstEntry] ++ c1SecondEntry :: []).length,
        errorDetails := { ErrorDetails.empty with hash := [["Hash mismatch."]] },
        validationResults := List.replicate ([c1FirstEntry] : List LogEntry).length [] ++
          ["Hash mismatch."] :: List.replicate ([] : List LogEntry).length [],
        validationStatus := "INVALID" } :=
  (c5_theorem [c1FirstEntry] c1SecondEntry [] "corrupt" (by decide)).1 c1FirstEntry rfl
    (by decide)

unseal Rat.mul Rat.inv Rat.add Rat.sub in
/-- C5 (counterexample): a ledger whose only defect is a corrupted
`hashChain` on its first event is reported `VALID` with zero hash-class
errors — the message `First hash should be GENESIS.` is recorded in the
per-event log but the classifier's `includes("Hash")` test never matches
it, so no class receives it and the status stays `VALID`, contradicting
the claimed `INVALID` with one hash error. -/
theorem c5_counterexample :
    runAudit [c1FirstEntry, c1SecondEntry] =
      { totalLogs := 2, errorDetails := ErrorDetails.empty,
        validationResults := [[], []], validationStatus := "VALID" } ∧
    ("corrupt" : String) ≠ "GENESIS" ∧
    (runAudit [{ c1FirstEntry with hashChain := "corrupt" }, c1SecondEntry]).validationStatus = "VALID" ∧
    (runAudit [{ c1FirstEntry with hashChain := "corrupt" }, c1SecondEntry]).errorDetails.hash = [] ∧
    (runAudit [{ c1FirstEntry with hashChain := "corrupt" }, c1SecondEntry]).errorDetails = ErrorDetails.empty ∧
    (runAudit [{ c1FirstEntry with hashChain := "corrupt" }, c1SecondEntry]).validationResults =
      [["First hash should be GENESIS."], []] := by
  refine ⟨by decide, by decide, by decide, by decide, by decide, by decide⟩

end HrStack
